import Mathlib

/-!
Shallow embedding of the wars-of-cards blackjack contract
(src/blackjack/src/{lib,storage}.rs and src/blackjack/src/game/
{types,action,player,table,admin}.rs).

Conventions of the embedding:
* `u128`/`u64`/`u8` amounts, counters and timestamps become `Nat`.
  Checked arithmetic (`checked_sub`, `checked_add`) is modelled by an
  explicit bounds test followed by `Nat` arithmetic; `saturating_sub`
  is `Nat` subtraction (which saturates at zero).
* `AccountId` and table ids become `String`.
* NEAR's `UnorderedMap`/`LookupMap` become association lists with
  first-match lookup and in-place replacement on insert.
* A function that can panic (`require!`, `expect`) returns
  `Except String _`; `Except.error msg` is the aborted call, which on
  NEAR reverts the whole transaction, so an error carries no new state.
  A soft rejection is `Except.ok (c, false)`.
* `env::predecessor_account_id()` and `env::block_timestamp()` are
  passed as explicit `caller`/`now` arguments.
-/

namespace WarsOfCards

abbrev AccountId := String

/-- `GameState` enum from game/types.rs. -/
inductive GameState where
  | WaitingForPlayers
  | Betting
  | DealingInitialCards
  | PlayerTurn
  | DealerTurn
  | RoundEnded
deriving DecidableEq, Repr

/-- `PlayerState` enum from game/types.rs. -/
inductive PlayerState where
  | WaitingForNextRound
  | Active
  | SittingOut
  | Observing
  | AwaitingBuyIn
deriving DecidableEq, Repr

/-- `PlayerMove` enum from game/types.rs. -/
inductive PlayerMove where
  | Hit
  | Stand
  | Double
  | Split
deriving DecidableEq, Repr

/-- `HandResult` enum from game/types.rs. -/
inductive HandResult where
  | Blackjack
  | Win
  | Push
  | Bust
  | Lose
deriving DecidableEq, Repr

/-- `BlackjackPlayer` struct from game/types.rs. -/
structure BlackjackPlayer where
  account_id : AccountId
  seat_number : Nat
  state : PlayerState
  burned_tokens : Nat
  joined_at : Nat
  last_action_time : Nat
  pending_move : Option PlayerMove
  total_burned_this_session : Nat
  rounds_played : Nat
deriving DecidableEq, Repr

/-- `GameTable` struct from game/types.rs. -/
structure GameTable where
  id : String
  state : GameState
  players : List BlackjackPlayer
  current_player_index : Option Nat
  round_number : Nat
  created_at : Nat
  last_activity : Nat
  betting_deadline : Option Nat
  move_deadline : Option Nat
  max_players : Nat
  min_bet : Nat
  max_bet : Nat
  is_active : Bool
deriving DecidableEq, Repr

/-- `BetSignal` struct from game/types.rs. -/
structure BetSignal where
  player_account : AccountId
  table_id : String
  amount : Nat
  timestamp : Nat
  seat_number : Nat
deriving DecidableEq, Repr

/-- `MoveSignal` struct from game/types.rs. -/
structure MoveSignal where
  player_account : AccountId
  table_id : String
  move_type : PlayerMove
  timestamp : Nat
  hand_index : Option Nat
deriving DecidableEq, Repr

/-- `PlayerWinning` struct from game/types.rs. -/
structure PlayerWinning where
  account_id : AccountId
  seat_number : Nat
  bet_amount : Nat
  winnings : Nat
  result : HandResult
  hand_index : Nat
deriving DecidableEq, Repr

/-- `WinningsDistribution` struct from game/types.rs. -/
structure WinningsDistribution where
  table_id : String
  round_number : Nat
  distributions : List PlayerWinning
  timestamp : Nat
  total_minted : Nat
deriving DecidableEq, Repr

/-- `GameConfig` struct from game/types.rs. -/
structure GameConfig where
  betting_timeout_ms : Nat
  move_timeout_ms : Nat
  round_break_ms : Nat
  max_inactive_time_ms : Nat
  min_bet_amount : Nat
  max_bet_amount : Nat
  auto_start_delay_ms : Nat
  max_players : Option Nat
deriving DecidableEq, Repr

/-- `GameConfig::default()` from game/types.rs. -/
def GameConfig.default : GameConfig where
  betting_timeout_ms := 45000
  move_timeout_ms := 30000
  round_break_ms := 5000
  max_inactive_time_ms := 180000
  min_bet_amount := 10
  max_bet_amount := 1000
  auto_start_delay_ms := 20000
  max_players := some 3

/-- `UserAccount` struct from tokens.rs. -/
structure UserAccount where
  balance : Nat
  last_claim_time : Nat
  storage_deposited : Bool
  total_claimed : Nat
  total_purchased : Nat
  total_burned : Nat
  registered_at : Nat
deriving DecidableEq, Repr

/-- `UserAccount::default()` (all-zero) from tokens.rs. -/
def UserAccount.default : UserAccount where
  balance := 0
  last_claim_time := 0
  storage_deposited := false
  total_claimed := 0
  total_purchased := 0
  total_burned := 0
  registered_at := 0

/-- `PurchaseTier` struct from tokens.rs (`near_cost` in yoctoNEAR). -/
structure PurchaseTier where
  near_cost : Nat
  cards_amount : Nat
  name : String
deriving DecidableEq, Repr

/-- `ContractConfig` struct from tokens.rs. -/
structure ContractConfig where
  daily_claim_amount : Nat
  claim_interval : Nat
  purchase_rates : List PurchaseTier
  valid_burn_amounts : List Nat
deriving DecidableEq, Repr

/-- `BlackjackStats` struct from lib.rs. -/
structure BlackjackStats where
  total_games_played : Nat
  total_hands_dealt : Nat
  total_tokens_burned_betting : Nat
  total_winnings_distributed : Nat
  active_tables : Nat
  total_players_joined : Nat
deriving DecidableEq, Repr

/-- `BlackjackStats::default()` from lib.rs. -/
def BlackjackStats.default : BlackjackStats where
  total_games_played := 0
  total_hands_dealt := 0
  total_tokens_burned_betting := 0
  total_winnings_distributed := 0
  active_tables := 0
  total_players_joined := 0

/-- Association-list lookup with first-match semantics
(models `UnorderedMap::get` / `LookupMap::get`). -/
def mapGet {K V : Type} [DecidableEq K] : List (K × V) → K → Option V
  | [], _ => none
  | (k', v) :: rest, k => if k' = k then some v else mapGet rest k

/-- Association-list insert replacing an existing binding
(models `UnorderedMap::insert` / `LookupMap::insert`). -/
def mapPut {K V : Type} [DecidableEq K] : List (K × V) → K → V → List (K × V)
  | [], k, v => [(k, v)]
  | (k', v') :: rest, k, v =>
      if k' = k then (k, v) :: rest else (k', v') :: mapPut rest k v

/-- Association-list removal of a binding
(models `UnorderedMap::remove` / `LookupMap::remove`). -/
def mapDel {K V : Type} [DecidableEq K] : List (K × V) → K → List (K × V)
  | [], _ => []
  | (k', v') :: rest, k =>
      if k' = k then rest else (k', v') :: mapDel rest k

/-- Membership in the association list (used for resolvability reasoning). -/
def mapHas {K V : Type} [DecidableEq K] (m : List (K × V)) (k : K) : Bool :=
  (mapGet m k).isSome

/-- `CardsContract` struct from lib.rs (storage deposits in yoctoNEAR). -/
structure CardsContract where
  total_supply : Nat
  total_cards_claimed : Nat
  total_cards_purchased : Nat
  total_cards_burned : Nat
  accounts : List (AccountId × UserAccount)
  storage_deposits : List (AccountId × Nat)
  config : ContractConfig
  game_tables : List (String × GameTable)
  pending_bets : List (String × List BetSignal)
  pending_moves : List (String × List MoveSignal)
  game_config : GameConfig
  blackjack_stats : BlackjackStats
  table_id_nonce : Nat
  owner_id : AccountId
  game_admins : List (AccountId × Bool)
  is_globally_paused : Option Bool
  pause_reason : Option String
deriving DecidableEq, Repr

/-- `ContractConfig::default()` from tokens.rs (only the fields the game
code reads are spelled out; the purchase tiers are carried verbatim). -/
def ContractConfig.default : ContractConfig where
  daily_claim_amount := 1000
  claim_interval := 60000000000
  purchase_rates := []
  valid_burn_amounts := [10, 30, 50, 100]

/-- `CardsContract::new(owner_id)` from lib.rs. -/
def CardsContract.new (owner_id : AccountId) : CardsContract where
  total_supply := 0
  total_cards_claimed := 0
  total_cards_purchased := 0
  total_cards_burned := 0
  accounts := []
  storage_deposits := []
  config := ContractConfig.default
  game_tables := []
  pending_bets := []
  pending_moves := []
  game_config := GameConfig.default
  blackjack_stats := BlackjackStats.default
  table_id_nonce := 0
  owner_id := owner_id
  game_admins := [(owner_id, true)]
  is_globally_paused := some false
  pause_reason := none

-- ========================================
-- storage.rs
-- ========================================

/-- `STORAGE_COST_PER_BYTE` from storage.rs (yoctoNEAR per byte). -/
def STORAGE_COST_PER_BYTE : Nat := 10000000000000000000

/-- `calculate_user_storage_cost` from storage.rs. -/
def calculate_user_storage_cost (account_id : AccountId) : Nat :=
  let total_bytes := account_id.length + 16 + 8 + 1 + 16 + 16 + 16 + 8 + 32 + 64
  total_bytes * STORAGE_COST_PER_BYTE * 120 / 100

/-- `calculate_blackjack_player_storage_cost` from storage.rs. -/
def calculate_blackjack_player_storage_cost (account_id : AccountId) : Nat :=
  let total_bytes := account_id.length + 1 + 4 + 16 + 8 + 8 + 8 + 16 + 4 + 32 + 32
  total_bytes * STORAGE_COST_PER_BYTE * 120 / 100

/-- `has_sufficient_blackjack_storage` from storage.rs. -/
def has_sufficient_blackjack_storage (user_deposit : Nat) (account_id : AccountId) : Bool :=
  calculate_user_storage_cost account_id
    + calculate_blackjack_player_storage_cost account_id ≤ user_deposit

-- ========================================
-- tokens.rs / lib.rs helpers used by the game module
-- ========================================

/-- `get_balance` from tokens.rs: absent accounts read as balance 0. -/
def get_balance (c : CardsContract) (account_id : AccountId) : Nat :=
  match mapGet c.accounts account_id with
  | some user => user.balance
  | none => 0

/-- `CardsContract::has_sufficient_balance` from lib.rs. -/
def has_sufficient_balance (c : CardsContract) (account_id : AccountId) (amount : Nat) : Bool :=
  amount ≤ get_balance c account_id

/-- `storage_deposit` from tokens.rs (attached deposit passed explicitly;
the returned `StorageBalance` view is dropped, the new contract state kept). -/
def storage_deposit (c : CardsContract) (account_id : AccountId) (deposit : Nat)
    (now : Nat) : Except String CardsContract :=
  let required_storage := calculate_user_storage_cost account_id
  if deposit < required_storage then .error "Minimum storage deposit"
  else
    let current_deposit := (mapGet c.storage_deposits account_id).getD 0
    let new_total := current_deposit + deposit
    let user := (mapGet c.accounts account_id).getD UserAccount.default
    let user2 := { user with
      storage_deposited := true
      registered_at := if user.registered_at = 0 then now else user.registered_at }
    .ok { c with
      storage_deposits := mapPut c.storage_deposits account_id new_total
      accounts := mapPut c.accounts account_id user2 }

-- ========================================
-- game/player.rs helpers
-- ========================================

/-- `iter().position(...)` + indexing on a table's player list: the seat
index of the first player with the given account, together with that
player record. -/
def findPlayerIdx : List BlackjackPlayer → AccountId → Option (Nat × BlackjackPlayer)
  | [], _ => none
  | p :: rest, a =>
      if p.account_id = a then some (0, p)
      else match findPlayerIdx rest a with
        | some (i, q) => some (i + 1, q)
        | none => none

/-- `find_next_active_player` from game/player.rs: cyclic scan starting
just after `start_index` for an Active player with a nonzero stake. -/
def find_next_active_player (table : GameTable) (start_index : Nat) : Option Nat :=
  let player_count := table.players.length
  if player_count = 0 then none
  else
    (List.range player_count).findSome? (fun j =>
      let next_index := (start_index + (j + 1)) % player_count
      match table.players.get? next_index with
      | some player =>
          if player.state = PlayerState.Active ∧ 0 < player.burned_tokens
          then some next_index else none
      | none => none)

/-- `find_next_active_player_index` from game/admin.rs (same scan as the
player.rs helper, duplicated there in the source). -/
def find_next_active_player_index (table : GameTable) (start_index : Nat) : Option Nat :=
  find_next_active_player table start_index

-- ========================================
-- game/action.rs
-- ========================================

/-- The ledger/stats part of `place_bet` (action.rs lines 55-74): debit the
caller's account, bump its cumulative burn, and update the contract-wide
supply and burn statistics.  Performed before the bet signal is appended. -/
def applyBetDebit (c : CardsContract) (caller : AccountId) (ua : UserAccount)
    (amount : Nat) : CardsContract :=
  let ua2 := { ua with
    balance := ua.balance - amount
    total_burned := ua.total_burned + amount }
  { c with
    accounts := mapPut c.accounts caller ua2
    total_supply := c.total_supply - amount
    total_cards_burned := c.total_cards_burned + amount
    blackjack_stats := { c.blackjack_stats with
      total_tokens_burned_betting :=
        c.blackjack_stats.total_tokens_burned_betting + amount } }

/-- Appending a `BetSignal` to a table's pending-bet queue
(action.rs lines 94-97). -/
def appendBetSignal (c : CardsContract) (table_id : String) (sig : BetSignal) :
    CardsContract :=
  let pending_bets := (mapGet c.pending_bets table_id).getD []
  { c with pending_bets := mapPut c.pending_bets table_id (pending_bets ++ [sig]) }

/-- Appending a `MoveSignal` to a table's pending-move queue
(action.rs lines 209-212). -/
def appendMoveSignal (c : CardsContract) (table_id : String) (sig : MoveSignal) :
    CardsContract :=
  let pending_moves := (mapGet c.pending_moves table_id).getD []
  { c with pending_moves := mapPut c.pending_moves table_id (pending_moves ++ [sig]) }

/-- The state-changing tail of `place_bet` (action.rs lines 55-101), run
once every guard has passed: debit first (`applyBetDebit`), then append the
bet signal (`appendBetSignal`), then write the updated table back. -/
def placeBetApply (c : CardsContract) (caller : AccountId) (now : Nat)
    (table_id : String) (amount : Nat) (table : GameTable) (player_index : Nat)
    (player : BlackjackPlayer) (ua : UserAccount) : CardsContract :=
  let seat_number := player.seat_number
  let c1 := applyBetDebit c caller ua amount
  let player2 := { player with
    burned_tokens := amount
    total_burned_this_session := player.total_burned_this_session + amount
    last_action_time := now }
  let sig : BetSignal :=
    { player_account := caller, table_id := table_id, amount := amount
      timestamp := now, seat_number := seat_number }
  let c2 := appendBetSignal c1 table_id sig
  let table2 := { table with
    players := table.players.set player_index player2
    last_activity := now }
  { c2 with game_tables := mapPut c2.game_tables table_id table2 }

/-- `place_bet` from game/action.rs.  `require!` failures and `expect`
panics abort (`Except.error`); a missing table or unseated caller is a soft
`false`.  The debit (`applyBetDebit`) happens strictly before the signal is
appended (`appendBetSignal`), before the table record is written back. -/
def place_bet (c : CardsContract) (caller : AccountId) (now : Nat)
    (table_id : String) (amount : Nat) : Except String (CardsContract × Bool) :=
  if amount ∉ c.config.valid_burn_amounts then .error "Invalid bet amount"
  else if ¬ has_sufficient_balance c caller amount then
    .error "Insufficient token balance"
  else match mapGet c.game_tables table_id with
  | none => .ok (c, false)
  | some table =>
    if table.state ≠ GameState.Betting then .error "Table not in betting state"
    else if table.is_active ≠ true then .error "Table is not active"
    else match findPlayerIdx table.players caller with
    | none => .ok (c, false)
    | some (player_index, player) =>
      if player.state ≠ PlayerState.Active then .error "Player not active"
      else if player.burned_tokens ≠ 0 then .error "Player already placed bet"
      else if amount < table.min_bet then .error "Bet below minimum"
      else if table.max_bet < amount then .error "Bet above maximum"
      else match mapGet c.accounts caller with
      | none => .error "User account not found"
      | some ua =>
        if ua.balance < amount then .error "Insufficient balance for bet"
        else if c.total_supply < amount then .error "Total supply underflow"
        else .ok (placeBetApply c caller now table_id amount table player_index player ua,
          true)

/-- The Double tail of `signal_move` (action.rs lines 174-216): burn the
original bet again (`applyBetDebit`), then record the move, append the move
signal and write the table back. -/
def signalMoveDoubleApply (c : CardsContract) (caller : AccountId) (now : Nat)
    (table_id : String) (move_type : PlayerMove) (hand_index : Option Nat)
    (table : GameTable) (player_index : Nat) (player : BlackjackPlayer)
    (ua : UserAccount) : CardsContract :=
  let double_amount := player.burned_tokens
  let cD := applyBetDebit c caller ua double_amount
  let playerD := { player with
    burned_tokens := player.burned_tokens + double_amount
    total_burned_this_session := player.total_burned_this_session + double_amount
    pending_move := some move_type
    last_action_time := now }
  let sig : MoveSignal :=
    { player_account := caller, table_id := table_id
      move_type := move_type, timestamp := now, hand_index := hand_index }
  let c2 := appendMoveSignal cD table_id sig
  let table2 := { table with
    players := table.players.set player_index playerD
    last_activity := now }
  { c2 with game_tables := mapPut c2.game_tables table_id table2 }

/-- The non-Double tail of `signal_move` (action.rs lines 196-216): record
the pending move, append the move signal and write the table back; no token
movement. -/
def signalMoveApply (c : CardsContract) (caller : AccountId) (now : Nat)
    (table_id : String) (move_type : PlayerMove) (hand_index : Option Nat)
    (table : GameTable) (player_index : Nat) (player : BlackjackPlayer) :
    CardsContract :=
  let player2 := { player with
    pending_move := some move_type
    last_action_time := now }
  let sig : MoveSignal :=
    { player_account := caller, table_id := table_id
      move_type := move_type, timestamp := now, hand_index := hand_index }
  let c2 := appendMoveSignal c table_id sig
  let table2 := { table with
    players := table.players.set player_index player2
    last_activity := now }
  { c2 with game_tables := mapPut c2.game_tables table_id table2 }

/-- `signal_move` from game/action.rs.  A `Double` burns the original bet
again before the move signal is appended; other moves only record intent. -/
def signal_move (c : CardsContract) (caller : AccountId) (now : Nat)
    (table_id : String) (move_type : PlayerMove) (hand_index : Option Nat) :
    Except String (CardsContract × Bool) :=
  match mapGet c.game_tables table_id with
  | none => .ok (c, false)
  | some table =>
    if table.state ≠ GameState.PlayerTurn then .error "Not in player turn state"
    else if table.is_active ≠ true then .error "Table is not active"
    else match findPlayerIdx table.players caller with
    | none => .ok (c, false)
    | some (player_index, player) =>
      match table.current_player_index with
      | none => .error "No current player set"
      | some current_player_index =>
        if player_index ≠ current_player_index then .error "Not your turn"
        else if player.state ≠ PlayerState.Active then .error "Player not active"
        else if move_type = PlayerMove.Double ∧
            ¬ has_sufficient_balance c caller player.burned_tokens then
          .error "Insufficient tokens for double"
        else if move_type = PlayerMove.Double then
          match mapGet c.accounts caller with
          | none => .error "User account not found"
          | some ua =>
            .ok (signalMoveDoubleApply c caller now table_id move_type hand_index
              table player_index player ua, true)
        else .ok (signalMoveApply c caller now table_id move_type hand_index
          table player_index player, true)

/-- One iteration of the crediting loop of `distribute_winnings`
(action.rs lines 262-277): credit the entry if its account resolves and
add to the minted total, otherwise skip it (warning only). -/
def creditStep (st : List (AccountId × UserAccount) × Nat) (w : PlayerWinning) :
    List (AccountId × UserAccount) × Nat :=
  match mapGet st.1 w.account_id with
  | some ua =>
      (mapPut st.1 w.account_id { ua with balance := ua.balance + w.winnings },
       st.2 + w.winnings)
  | none => st

/-- The crediting loop of `distribute_winnings` (action.rs lines 260-277):
fold over the batch, crediting each entry whose account resolves and
accumulating the total minted; unresolvable entries are skipped. -/
def creditWinnings (accounts : List (AccountId × UserAccount))
    (ws : List PlayerWinning) : List (AccountId × UserAccount) × Nat :=
  ws.foldl creditStep (accounts, 0)

/-- The per-player reset of `distribute_winnings` (action.rs lines 285-294):
zero the current-round burn, clear the pending move, stamp activity.  The
source's `if Active then Active` arm is a no-op and the rounds-played
counter is not touched. -/
def resetPlayerForNextRound (now : Nat) (p : BlackjackPlayer) : BlackjackPlayer :=
  { p with burned_tokens := 0, pending_move := none, last_action_time := now }

/-- The table update of `distribute_winnings` (action.rs lines 284-299):
reset every seated player, bump the round number, end the round. -/
def distTableUpdate (now : Nat) (table : GameTable) : GameTable :=
  { table with
    players := table.players.map (resetPlayerForNextRound now)
    round_number := table.round_number + 1
    last_activity := now
    state := GameState.RoundEnded }

/-- `distribute_winnings` from game/action.rs. -/
def distribute_winnings (c : CardsContract) (now : Nat)
    (distribution : WinningsDistribution) : Except String (CardsContract × Bool) :=
  let table_id := distribution.table_id
  match mapGet c.game_tables table_id with
  | none => .ok (c, false)
  | some table =>
    if distribution.round_number < table.round_number then
      .error "Cannot distribute winnings for past rounds"
    else
      let credited := creditWinnings c.accounts distribution.distributions
      let total_minted := credited.2
      let stats := c.blackjack_stats
      let stats2 := { stats with
        total_winnings_distributed := stats.total_winnings_distributed + total_minted
        total_hands_dealt := stats.total_hands_dealt + distribution.distributions.length }
      .ok ({ c with
        accounts := credited.1
        total_supply := c.total_supply + total_minted
        blackjack_stats := stats2
        game_tables := mapPut c.game_tables table_id (distTableUpdate now table)
        pending_bets := mapPut c.pending_bets table_id []
        pending_moves := mapPut c.pending_moves table_id [] }, true)

-- ========================================
-- game/player.rs
-- ========================================

/-- The phase-to-player-state mapping of `join_table`
(player.rs lines 62-69). -/
def playerStateForJoin : GameState → PlayerState
  | GameState.WaitingForPlayers => PlayerState.Active
  | GameState.Betting => PlayerState.Active
  | GameState.DealingInitialCards => PlayerState.Observing
  | GameState.PlayerTurn => PlayerState.Observing
  | GameState.DealerTurn => PlayerState.Observing
  | GameState.RoundEnded => PlayerState.WaitingForNextRound

/-- The state-changing tail of `join_table` (player.rs lines 71-90), run
once every check has passed: seat the new player (state derived from the
table phase) and bump the joined-players statistic. -/
def joinApply (c : CardsContract) (caller : AccountId) (now : Nat)
    (table_id : String) (seat_number : Nat) (table : GameTable) : CardsContract :=
  let blackjack_player : BlackjackPlayer :=
    { account_id := caller
      seat_number := seat_number
      state := playerStateForJoin table.state
      burned_tokens := 0
      joined_at := now
      last_action_time := now
      pending_move := none
      total_burned_this_session := 0
      rounds_played := 0 }
  let table2 := { table with
    players := table.players ++ [blackjack_player]
    last_activity := now }
  { c with
    game_tables := mapPut c.game_tables table_id table2
    blackjack_stats := { c.blackjack_stats with
      total_players_joined := c.blackjack_stats.total_players_joined + 1 } }

/-- `join_table` from game/player.rs.  Every validation failure is a soft
`false`; the function has no aborting path. -/
def join_table (c : CardsContract) (caller : AccountId) (now : Nat)
    (table_id : String) (seat_number : Nat) : Except String (CardsContract × Bool) :=
  if seat_number < 1 ∨ 3 < seat_number then .ok (c, false)
  else if ¬ has_sufficient_blackjack_storage
      ((mapGet c.storage_deposits caller).getD 0) caller then .ok (c, false)
  else match mapGet c.game_tables table_id with
  | none => .ok (c, false)
  | some table =>
    if table.is_active ≠ true then .ok (c, false)
    else if table.max_players ≤ table.players.length then .ok (c, false)
    else if table.players.any (fun p => p.seat_number = seat_number) then .ok (c, false)
    else if table.players.any (fun p => p.account_id = caller) then .ok (c, false)
    else .ok (joinApply c caller now table_id seat_number table, true)

/-- The refund block of `leave_table` (player.rs lines 133-146): mint the
stake back and pull it out of the burn statistics, but only when the table
is still in `Betting` or `WaitingForPlayers` and the account resolves. -/
def applyLeaveRefund (c : CardsContract) (account_id : AccountId)
    (burned_tokens : Nat) : CardsContract :=
  match mapGet c.accounts account_id with
  | some ua =>
      { c with
        accounts := mapPut c.accounts account_id
          { ua with balance := ua.balance + burned_tokens }
        total_supply := c.total_supply + burned_tokens
        blackjack_stats := { c.blackjack_stats with
          total_tokens_burned_betting :=
            c.blackjack_stats.total_tokens_burned_betting - burned_tokens } }
  | none => c

/-- The state-changing tail of `leave_table` (player.rs lines 129-176):
conditional refund, turn-pointer adjustment, seat removal, empty-table
reset with queue removal. -/
def leaveApply (c : CardsContract) (caller : AccountId) (now : Nat)
    (table_id : String) (table : GameTable) (player_index : Nat)
    (player : BlackjackPlayer) : CardsContract :=
  let burned_tokens := player.burned_tokens
  let c1 :=
    if 0 < burned_tokens ∧ (table.state = GameState.Betting ∨
        table.state = GameState.WaitingForPlayers)
    then applyLeaveRefund c caller burned_tokens
    else c
  let cpi :=
    match table.current_player_index with
    | some current_idx =>
        if current_idx = player_index then
          find_next_active_player table current_idx
        else if player_index < current_idx then some (current_idx - 1)
        else some current_idx
    | none => none
  let players2 := table.players.eraseIdx player_index
  let table2 := { table with
    players := players2
    current_player_index := cpi
    last_activity := now }
  if players2.isEmpty then
    let table3 := { table2 with
      state := GameState.WaitingForPlayers
      current_player_index := none
      betting_deadline := none
      move_deadline := none }
    { c1 with
      pending_bets := mapDel c1.pending_bets table_id
      pending_moves := mapDel c1.pending_moves table_id
      game_tables := mapPut c1.game_tables table_id table3 }
  else { c1 with game_tables := mapPut c1.game_tables table_id table2 }

/-- `leave_table` from game/player.rs. -/
def leave_table (c : CardsContract) (caller : AccountId) (now : Nat)
    (table_id : String) : Except String (CardsContract × Bool) :=
  match mapGet c.game_tables table_id with
  | none => .ok (c, false)
  | some table =>
    match findPlayerIdx table.players caller with
    | none => .ok (c, false)
    | some (player_index, player) =>
      .ok (leaveApply c caller now table_id table player_index player, true)

/-- The stake refund of `cleanup_inactive_players` (player.rs lines
225-233): unconditional on the table phase, unlike `leave_table`. -/
def cleanupRefund (c : CardsContract) (player : BlackjackPlayer) : CardsContract :=
  if 0 < player.burned_tokens then
    match mapGet c.accounts player.account_id with
    | some ua =>
        { c with
          accounts := mapPut c.accounts player.account_id
            { ua with balance := ua.balance + player.burned_tokens }
          total_supply := c.total_supply + player.burned_tokens
          blackjack_stats := { c.blackjack_stats with
            total_tokens_burned_betting :=
              c.blackjack_stats.total_tokens_burned_betting
                - player.burned_tokens } }
    | none => c
  else c

/-- One removal step of `cleanup_inactive_players` (player.rs lines
221-244): refund the stake read from the live list and erase the seat at
the given index. -/
def cleanupRemoveStep (st : CardsContract × GameTable) (ip : Nat × BlackjackPlayer) :
    CardsContract × GameTable :=
  match st.2.players.get? ip.1 with
  | none => st
  | some player =>
      (cleanupRefund st.1 player, { st.2 with players := st.2.players.eraseIdx ip.1 })

/-- The refunds of a removal pass, applied from the highest-index removed
player down (the fold processes the collected list in reverse). -/
def refundAllDesc (c : CardsContract) (l : List BlackjackPlayer) : CardsContract :=
  l.foldr (fun p acc => cleanupRefund acc p) c

/-- The post-removal bookkeeping of `cleanup_inactive_players` (player.rs
lines 246-272): stamp activity, re-point the turn index if it fell out of
range, reset an emptied table and drop its queues, write the table back. -/
def cleanupFinish (cA : CardsContract) (now : Nat) (table_id : String)
    (t0 : GameTable) (removed_count : Nat) : CardsContract × Nat :=
  let tA := { t0 with last_activity := now }
  let tB :=
    match tA.current_player_index with
    | some current_idx =>
        if tA.players.length ≤ current_idx then
          { tA with current_player_index := find_next_active_player tA 0 }
        else tA
    | none => tA
  if tB.players.isEmpty then
    let tC := { tB with
      state := GameState.WaitingForPlayers
      current_player_index := none
      betting_deadline := none
      move_deadline := none }
    ({ cA with
      pending_bets := mapDel cA.pending_bets table_id
      pending_moves := mapDel cA.pending_moves table_id
      game_tables := mapPut cA.game_tables table_id tC }, removed_count)
  else
    ({ cA with game_tables := mapPut cA.game_tables table_id tB }, removed_count)

/-- `cleanup_inactive_players` from game/player.rs: collect the
(index, player) pairs whose inactivity exceeds the timeout, remove them in
reverse (highest index first) so the collected indices stay valid, then fix
the turn pointer and reset an emptied table.  The `u64` age subtraction is
`Nat` subtraction. -/
def cleanup_inactive_players (c : CardsContract) (now : Nat) (table_id : String)
    (timeout_ms : Nat) : CardsContract × Nat :=
  let timeout_ns := timeout_ms * 1000000
  match mapGet c.game_tables table_id with
  | none => (c, 0)
  | some table =>
    let players_to_remove := table.players.enum.filter
      (fun ip => timeout_ns < now - ip.2.last_action_time)
    let res := players_to_remove.reverse.foldl cleanupRemoveStep (c, table)
    let removed_count := players_to_remove.length
    if removed_count = 0 then (c, 0)
    else cleanupFinish res.1 now table_id res.2 removed_count

-- ========================================
-- game/table.rs
-- ========================================

/-- `generate_table_id` from lib.rs. -/
def generate_table_id (c : CardsContract) : CardsContract × String :=
  let c2 := { c with table_id_nonce := c.table_id_nonce + 1 }
  (c2, "table-" ++ toString c2.table_id_nonce)

/-- `create_table` from game/table.rs. -/
def create_table (c : CardsContract) (now : Nat) (table_id : Option String) :
    Except String (CardsContract × String) :=
  let gen :=
    match table_id with
    | some tid => (c, tid)
    | none => generate_table_id c
  let c0 := gen.1
  let final_table_id := gen.2
  if (mapGet c0.game_tables final_table_id).isSome then
    .error "Table already exists"
  else
    let table : GameTable :=
      { id := final_table_id
        state := GameState.WaitingForPlayers
        players := []
        current_player_index := none
        round_number := 0
        created_at := now
        last_activity := now
        betting_deadline := none
        move_deadline := none
        max_players := c0.game_config.max_players.getD 3
        min_bet := c0.game_config.min_bet_amount
        max_bet := c0.game_config.max_bet_amount
        is_active := true }
    .ok ({ c0 with
      game_tables := mapPut c0.game_tables final_table_id table
      blackjack_stats := { c0.blackjack_stats with
        active_tables := c0.blackjack_stats.active_tables + 1 }
      pending_bets := mapPut c0.pending_bets final_table_id []
      pending_moves := mapPut c0.pending_moves final_table_id [] }, final_table_id)

/-- The deadline bookkeeping of `set_table_state` (table.rs lines 146-174):
`DealingInitialCards` falls into the wildcard arm and touches nothing. -/
def tableStateDeadlines (c : CardsContract) (now : Nat) (table : GameTable) :
    GameState → GameTable
  | GameState.WaitingForPlayers =>
      { table with betting_deadline := none, move_deadline := none
                   current_player_index := none }
  | GameState.Betting =>
      { table with move_deadline := none
                   betting_deadline := some (now + c.game_config.betting_timeout_ms * 1000000) }
  | GameState.PlayerTurn =>
      { table with betting_deadline := none
                   move_deadline := some (now + c.game_config.move_timeout_ms * 1000000) }
  | GameState.DealerTurn =>
      { table with betting_deadline := none, move_deadline := none }
  | GameState.RoundEnded =>
      { table with betting_deadline := none, move_deadline := none }
  | GameState.DealingInitialCards => table

/-- `set_table_state` from game/table.rs. -/
def set_table_state (c : CardsContract) (now : Nat) (table_id : String)
    (new_state : GameState) : CardsContract × Bool :=
  match mapGet c.game_tables table_id with
  | none => (c, false)
  | some table =>
      let table1 := { table with state := new_state, last_activity := now }
      let table2 := tableStateDeadlines c now table1 new_state
      ({ c with game_tables := mapPut c.game_tables table_id table2 }, true)

/-- `set_current_player` from game/table.rs: direct override that installs
a move deadline but leaves any betting deadline in place. -/
def set_current_player (c : CardsContract) (now : Nat) (table_id : String)
    (player_account : AccountId) : CardsContract × Bool :=
  match mapGet c.game_tables table_id with
  | none => (c, false)
  | some table =>
      match findPlayerIdx table.players player_account with
      | none => (c, false)
      | some (index, _) =>
          let table2 := { table with
            current_player_index := some index
            last_activity := now
            move_deadline := some (now + c.game_config.move_timeout_ms * 1000000) }
          ({ c with game_tables := mapPut c.game_tables table_id table2 }, true)

-- ========================================
-- game/admin.rs
-- ========================================

/-- The per-state bookkeeping of `advance_game_state`
(admin.rs lines 32-103): entering `Betting` resets every player;
`DealingInitialCards` falls into the wildcard arm and touches nothing. -/
def advanceStateUpdate (c : CardsContract) (now : Nat) (table : GameTable) :
    GameState → GameTable × BlackjackStats
  | GameState.Betting =>
      let players2 := table.players.map (fun player =>
        { player with
          burned_tokens := 0
          pending_move := none
          last_action_time := now
          state :=
            if player.state = PlayerState.Observing ∨
               player.state = PlayerState.WaitingForNextRound
            then PlayerState.Active else player.state })
      ({ table with
          players := players2
          betting_deadline := some (now + c.game_config.betting_timeout_ms * 1000000)
          move_deadline := none
          current_player_index := none }, c.blackjack_stats)
  | GameState.PlayerTurn =>
      let eligible := table.players.enum.filter
        (fun ip => ip.2.state = PlayerState.Active ∧ 0 < ip.2.burned_tokens)
      -- `min_by_key` keeps the last of equally-minimal seat numbers
      let first_player_index :=
        (eligible.foldl (fun acc ip =>
          match acc with
          | none => some ip
          | some best =>
              if ip.2.seat_number ≤ best.2.seat_number then some ip else some best)
          none).map (fun ip => ip.1)
      ({ table with
          current_player_index := first_player_index
          betting_deadline := none
          move_deadline :=
            if first_player_index.isSome
            then some (now + c.game_config.move_timeout_ms * 1000000)
            else table.move_deadline }, c.blackjack_stats)
  | GameState.DealerTurn =>
      ({ table with
          current_player_index := none
          betting_deadline := none
          move_deadline := none }, c.blackjack_stats)
  | GameState.RoundEnded =>
      ({ table with
          round_number := table.round_number + 1
          current_player_index := none
          betting_deadline := none
          move_deadline := none },
       { c.blackjack_stats with
          total_games_played := c.blackjack_stats.total_games_played + 1 })
  | GameState.WaitingForPlayers =>
      ({ table with
          current_player_index := none
          betting_deadline := none
          move_deadline := none }, c.blackjack_stats)
  | GameState.DealingInitialCards => (table, c.blackjack_stats)

/-- `advance_game_state` from game/admin.rs. -/
def advance_game_state (c : CardsContract) (now : Nat) (table_id : String)
    (new_state : GameState) : CardsContract × Bool :=
  match mapGet c.game_tables table_id with
  | none => (c, false)
  | some table =>
      let table1 := { table with state := new_state, last_activity := now }
      let upd := advanceStateUpdate c now table1 new_state
      ({ c with
          game_tables := mapPut c.game_tables table_id upd.1
          blackjack_stats := upd.2 }, true)

/-- `set_current_player_admin` from game/admin.rs: like the table.rs
override, installs a move deadline without clearing a betting deadline. -/
def set_current_player_admin (c : CardsContract) (now : Nat) (table_id : String)
    (player_account : AccountId) : CardsContract × Bool :=
  match mapGet c.game_tables table_id with
  | none => (c, false)
  | some table =>
      match findPlayerIdx table.players player_account with
      | none => (c, false)
      | some (index, _) =>
          let table2 := { table with
            current_player_index := some index
            move_deadline := some (now + c.game_config.move_timeout_ms * 1000000)
            last_activity := now }
          ({ c with game_tables := mapPut c.game_tables table_id table2 }, true)

/-- `kick_player` from game/admin.rs: refund (no phase check), adjust the
turn pointer, remove the player; an emptied table is reset but its pending
signal queues are left in place (unlike `leave_table`). -/
def kick_player (c : CardsContract) (now : Nat) (table_id : String)
    (player_account : AccountId) : CardsContract × Bool :=
  match mapGet c.game_tables table_id with
  | none => (c, false)
  | some table =>
    match findPlayerIdx table.players player_account with
    | none => (c, false)
    | some (index, player) =>
      let burned_tokens := player.burned_tokens
      let c1 :=
        if 0 < burned_tokens then
          match mapGet c.accounts player_account with
          | some ua =>
              { c with
                accounts := mapPut c.accounts player_account
                  { ua with balance := ua.balance + burned_tokens }
                total_supply := c.total_supply + burned_tokens
                blackjack_stats := { c.blackjack_stats with
                  total_tokens_burned_betting :=
                    c.blackjack_stats.total_tokens_burned_betting - burned_tokens } }
          | none => c
        else c
      let cpi :=
        match table.current_player_index with
        | some current_idx =>
            if current_idx = index then
              find_next_active_player_index table current_idx
            else if index < current_idx then some (current_idx - 1)
            else some current_idx
        | none => none
      let players2 := table.players.eraseIdx index
      let table2 := { table with
        players := players2
        current_player_index := cpi
        last_activity := now }
      let table3 :=
        if players2.isEmpty then
          { table2 with
            state := GameState.WaitingForPlayers
            current_player_index := none
            betting_deadline := none
            move_deadline := none }
        else table2
      ({ c1 with game_tables := mapPut c1.game_tables table_id table3 }, true)

-- ========================================
-- Basic facts about the seat lookup
-- ========================================

-- ========================================
-- Shared concrete states for witnesses and counterexamples
-- ========================================

/-- A fresh contract with alice holding 5 tokens and seated alone, Betting
phase, default config (valid burn amounts [10, 30, 50, 100]). -/
def exPlayerAlice : BlackjackPlayer where
  account_id := "alice.near"
  seat_number := 1
  state := PlayerState.Active
  burned_tokens := 0
  joined_at := 0
  last_action_time := 0
  pending_move := none
  total_burned_this_session := 0
  rounds_played := 0

/-- A single-player table in the Betting phase. -/
def exTableBetting : GameTable where
  id := "t"
  state := GameState.Betting
  players := [exPlayerAlice]
  current_player_index := none
  round_number := 1
  created_at := 0
  last_activity := 0
  betting_deadline := none
  move_deadline := none
  max_players := 3
  min_bet := 10
  max_bet := 1000
  is_active := true

/-- Contract state for the low-balance bet scenario. -/
def exLowBalance : CardsContract :=
  { CardsContract.new "owner.near" with
    accounts := [("alice.near", { UserAccount.default with balance := 5 })]
    total_supply := 5
    game_tables := [("t", exTableBetting)]
    pending_bets := [("t", [])]
    pending_moves := [("t", [])] }

/-- bob, staked 50, mid-hand. -/
def exPlayerBob : BlackjackPlayer where
  account_id := "bob.near"
  seat_number := 1
  state := PlayerState.Active
  burned_tokens := 50
  joined_at := 0
  last_action_time := 0
  pending_move := none
  total_burned_this_session := 50
  rounds_played := 0

/-- A single-player table in the PlayerTurn phase with bob to act. -/
def exTableTurn : GameTable where
  id := "t"
  state := GameState.PlayerTurn
  players := [exPlayerBob]
  current_player_index := some 0
  round_number := 1
  created_at := 0
  last_activity := 0
  betting_deadline := none
  move_deadline := none
  max_players := 3
  min_bet := 10
  max_bet := 1000
  is_active := true

/-- Contract state mid-round: bob staked 50, balance 100 left. -/
def exMidRound : CardsContract :=
  { CardsContract.new "owner.near" with
    accounts := [("bob.near", { UserAccount.default with balance := 100 })]
    total_supply := 150
    blackjack_stats := { BlackjackStats.default with total_tokens_burned_betting := 50 }
    game_tables := [("t", exTableTurn)]
    pending_bets := [("t", [])]
    pending_moves := [("t", [])] }

/-- The outcome of bob leaving the mid-round table (extracted from the
`Except`; leave_table succeeds here). -/
def exMidLeave : CardsContract × Bool :=
  match leave_table exMidRound "bob.near" 10000000000 "t" with
  | Except.ok r => r
  | Except.error _ => (exMidRound, false)

/-- A long-inactive seated player (seat 0). -/
def exPlayerOld : BlackjackPlayer where
  account_id := "old.near"
  seat_number := 0
  state := PlayerState.Active
  burned_tokens := 20
  joined_at := 0
  last_action_time := 0
  pending_move := none
  total_burned_this_session := 20
  rounds_played := 0

/-- The player whose turn it is (seat 1), recently active. -/
def exPlayerMid : BlackjackPlayer where
  account_id := "mid.near"
  seat_number := 1
  state := PlayerState.Active
  burned_tokens := 30
  joined_at := 0
  last_action_time := 10000000000
  pending_move := none
  total_burned_this_session := 30
  rounds_played := 0

/-- A recently active player behind the mover (seat 2). -/
def exPlayerNew : BlackjackPlayer where
  account_id := "new.near"
  seat_number := 2
  state := PlayerState.Active
  burned_tokens := 30
  joined_at := 0
  last_action_time := 10000000000
  pending_move := none
  total_burned_this_session := 30
  rounds_played := 0

/-- A three-player PlayerTurn table with the turn pointer on seat 1. -/
def exSweepTable : GameTable where
  id := "s"
  state := GameState.PlayerTurn
  players := [exPlayerOld, exPlayerMid, exPlayerNew]
  current_player_index := some 1
  round_number := 1
  created_at := 0
  last_activity := 0
  betting_deadline := none
  move_deadline := none
  max_players := 4
  min_bet := 10
  max_bet := 1000
  is_active := true

/-- Contract state for the pointer-drift sweep scenario. -/
def exSweepState : CardsContract :=
  { CardsContract.new "owner.near" with
    accounts := [("old.near", { UserAccount.default with balance := 100 })]
    total_supply := 120
    game_tables := [("s", exSweepTable)]
    pending_bets := [("s", [])]
    pending_moves := [("s", [])] }

/-- The table after sweeping the inactive seat-0 player out of
`exSweepState` (extracted from the resulting map). -/
def exSweptTable : GameTable :=
  match mapGet (cleanup_inactive_players exSweepState 10000000000 "s" 1).1.game_tables
      "s" with
  | some t => t
  | none => exSweepTable


/-- Total winnings a given account is owed by a distribution batch
(summed over all of its entries). -/
def winningsFor (ws : List PlayerWinning) (x : AccountId) : Nat :=
  ((ws.filter (fun w => w.account_id = x)).map (fun w => w.winnings)).sum

/-- Total winnings over the entries of a batch whose account resolves in
the given ledger. -/
def resolvableWinningsSum (accs : List (AccountId × UserAccount))
    (ws : List PlayerWinning) : Nat :=
  (ws.map (fun w => if (mapGet accs w.account_id).isSome then w.winnings else 0)).sum

/-- A one-entry winnings batch for bob, submitted for round 2 (one above
the table's current round). -/
def exDistNext : WinningsDistribution where
  table_id := "t"
  round_number := 2
  distributions :=
    [{ account_id := "bob.near", seat_number := 1, bet_amount := 50
       winnings := 100, result := HandResult.Win, hand_index := 1 }]
  timestamp := 0
  total_minted := 0

/-- The same batch stamped with a stale round number. -/
def exDistPast : WinningsDistribution := { exDistNext with round_number := 0 }

/-- The same batch stamped with the table's current round number. -/
def exDistCur : WinningsDistribution := { exDistNext with round_number := 1 }

/-- Contract state after settling `exDistNext` once. -/
def exDouble1 : CardsContract :=
  match distribute_winnings exMidRound 99 exDistNext with
  | Except.ok (c, _) => c
  | Except.error _ => exMidRound

/-- Contract state after settling `exDistNext` a second time. -/
def exDouble2 : CardsContract :=
  match distribute_winnings exDouble1 100 exDistNext with
  | Except.ok (c, _) => c
  | Except.error _ => exMidRound

/-- Contract state after settling `exDistCur`. -/
def exSettleCur : CardsContract :=
  match distribute_winnings exMidRound 99 exDistCur with
  | Except.ok (c, _) => c
  | Except.error _ => exMidRound

/-- A funded bettor: alice seated alone in the Betting phase holding
1000 tokens. -/
def exFunded : CardsContract :=
  { CardsContract.new "owner.near" with
    accounts := [("alice.near", { UserAccount.default with balance := 1000 })]
    storage_deposits := [("carol.near", 10000000000000000000000000)]
    total_supply := 1000
    game_tables := [("t", exTableBetting)]
    pending_bets := [("t", [])]
    pending_moves := [("t", [])] }

/-- Contract state after alice's 50-token bet on `exFunded`. -/
def exBet50 : CardsContract :=
  match place_bet exFunded "alice.near" 7 "t" 50 with
  | Except.ok (c, _) => c
  | Except.error _ => exFunded

/-- alice with a live 50-token stake during Betting. -/
def exPlayerStaked : BlackjackPlayer :=
  { exPlayerAlice with burned_tokens := 50, total_burned_this_session := 50 }

/-- The Betting table with alice's stake live. -/
def exTableStaked : GameTable := { exTableBetting with players := [exPlayerStaked] }

/-- Contract state mid-betting: alice staked 50 of her 1000. -/
def exStaked : CardsContract :=
  { CardsContract.new "owner.near" with
    accounts := [("alice.near", { UserAccount.default with balance := 950 })]
    total_supply := 950
    blackjack_stats := { BlackjackStats.default with total_tokens_burned_betting := 50 }
    game_tables := [("t", exTableStaked)]
    pending_bets := [("t", [])]
    pending_moves := [("t", [])] }

/-- Contract state after alice leaves `exStaked` mid-betting. -/
def exLeft : CardsContract :=
  match leave_table exStaked "alice.near" 9 "t" with
  | Except.ok (c, _) => c
  | Except.error _ => exStaked

/-- A state chain built purely from contract entry points: fresh contract,
storage deposit, table creation, join, advance to Betting, then the admin
current-player override.  Returns the final table. -/
def exC7chain : Option GameTable :=
  let c0 := CardsContract.new "owner.near"
  match storage_deposit c0 "alice.near" 10000000000000000000000000 0 with
  | Except.error _ => none
  | Except.ok c1 =>
    match create_table c1 0 (some "t1") with
    | Except.error _ => none
    | Except.ok (c2, tid) =>
      match join_table c2 "alice.near" 1 tid 1 with
      | Except.error _ => none
      | Except.ok (c3, b3) =>
        if b3 = false then none
        else
          match advance_game_state c3 2 tid GameState.Betting with
          | (c4, b4) =>
            if b4 = false then none
            else
              match set_current_player c4 3 tid "alice.near" with
              | (c5, b5) =>
                if b5 = false then none
                else mapGet c5.game_tables tid

/-- Result of a DealerTurn transition on the mid-round state. -/
def exStateSet : CardsContract :=
  (set_table_state exMidRound 5 "t" GameState.DealerTurn).1

/-- The table of `exStateSet`. -/
def exStateTable : GameTable :=
  (mapGet exStateSet.game_tables "t").getD exTableTurn

-- ========================================
-- Association-list lemmas
-- ========================================

theorem mapGet_mapPut_same {K V : Type} [DecidableEq K]
    (m : List (K × V)) (k : K) (v : V) : mapGet (mapPut m k v) k = some v := by
  induction m with
  | nil => simp [mapGet, mapPut]
  | cons hd tl ih =>
      by_cases h : hd.1 = k
      · simp [mapPut, h, mapGet]
      · simpa [mapPut, h, mapGet] using ih

theorem mapGet_mapPut_other {K V : Type} [DecidableEq K]
    (m : List (K × V)) (k k' : K) (v : V) (hne : k ≠ k') :
    mapGet (mapPut m k v) k' = mapGet m k' := by
  induction m with
  | nil => simp [mapGet, mapPut, hne]
  | cons hd tl ih =>
      by_cases h : hd.1 = k
      · simp [mapPut, h, mapGet, hne]
      · simp [mapPut, h, mapGet]
        split <;> simp_all [mapGet]

theorem mapGet_eq_none_of_not_mem {K V : Type} [DecidableEq K]
    (m : List (K × V)) (k : K) (h : k ∉ m.map Prod.fst) : mapGet m k = none := by
  induction m with
  | nil => simp [mapGet]
  | cons hd tl ih =>
      simp only [List.map_cons, List.mem_cons] at h
      push_neg at h
      have hne : hd.1 ≠ k := fun he => h.1 he.symm
      simp only [mapGet, if_neg hne]
      exact ih h.2

theorem mapGet_mapDel_same {K V : Type} [DecidableEq K]
    (m : List (K × V)) (k : K) (hnd : (m.map Prod.fst).Nodup) :
    mapGet (mapDel m k) k = none := by
  induction m with
  | nil => simp [mapDel, mapGet]
  | cons hd tl ih =>
      simp only [List.map_cons, List.nodup_cons] at hnd
      by_cases h : hd.1 = k
      · subst h
        simp only [mapDel, if_pos rfl]
        exact mapGet_eq_none_of_not_mem tl hd.1 hnd.1
      · simp only [mapDel, if_neg h, mapGet, if_neg h]
        exact ih hnd.2

theorem applyLeaveRefund_pending_bets (c : CardsContract) (x : AccountId)
    (b : Nat) : (applyLeaveRefund c x b).pending_bets = c.pending_bets := by
  unfold applyLeaveRefund
  split <;> rfl

theorem applyLeaveRefund_pending_moves (c : CardsContract) (x : AccountId)
    (b : Nat) : (applyLeaveRefund c x b).pending_moves = c.pending_moves := by
  unfold applyLeaveRefund
  split <;> rfl

theorem leaveApply_accounts (c : CardsContract) (caller : AccountId) (now : Nat)
    (tid : String) (table : GameTable) (i : Nat) (p : BlackjackPlayer) :
    (leaveApply c caller now tid table i p).accounts
      = (if 0 < p.burned_tokens ∧ (table.state = GameState.Betting ∨
          table.state = GameState.WaitingForPlayers)
        then applyLeaveRefund c caller p.burned_tokens else c).accounts := by
  simp only [leaveApply]
  split <;> rfl

theorem leaveApply_total_supply (c : CardsContract) (caller : AccountId)
    (now : Nat) (tid : String) (table : GameTable) (i : Nat)
    (p : BlackjackPlayer) :
    (leaveApply c caller now tid table i p).total_supply
      = (if 0 < p.burned_tokens ∧ (table.state = GameState.Betting ∨
          table.state = GameState.WaitingForPlayers)
        then applyLeaveRefund c caller p.burned_tokens else c).total_supply := by
  simp only [leaveApply]
  split <;> rfl

theorem leaveApply_stats (c : CardsContract) (caller : AccountId) (now : Nat)
    (tid : String) (table : GameTable) (i : Nat) (p : BlackjackPlayer) :
    (leaveApply c caller now tid table i p).blackjack_stats
      = (if 0 < p.burned_tokens ∧ (table.state = GameState.Betting ∨
          table.state = GameState.WaitingForPlayers)
        then applyLeaveRefund c caller p.burned_tokens else c).blackjack_stats := by
  simp only [leaveApply]
  split <;> rfl

theorem leaveApply_pending_bets_empty (c : CardsContract) (caller : AccountId)
    (now : Nat) (tid : String) (table : GameTable) (i : Nat) (p : BlackjackPlayer)
    (hemp : (table.players.eraseIdx i).isEmpty = true) :
    (leaveApply c caller now tid table i p).pending_bets
      = mapDel c.pending_bets tid := by
  simp only [leaveApply]
  rw [if_pos hemp]
  show mapDel (if 0 < p.burned_tokens ∧ (table.state = GameState.Betting ∨
      table.state = GameState.WaitingForPlayers)
    then applyLeaveRefund c caller p.burned_tokens else c).pending_bets tid
    = mapDel c.pending_bets tid
  split
  · rw [applyLeaveRefund_pending_bets]
  · rfl

theorem leaveApply_pending_moves_empty (c : CardsContract) (caller : AccountId)
    (now : Nat) (tid : String) (table : GameTable) (i : Nat) (p : BlackjackPlayer)
    (hemp : (table.players.eraseIdx i).isEmpty = true) :
    (leaveApply c caller now tid table i p).pending_moves
      = mapDel c.pending_moves tid := by
  simp only [leaveApply]
  rw [if_pos hemp]
  show mapDel (if 0 < p.burned_tokens ∧ (table.state = GameState.Betting ∨
      table.state = GameState.WaitingForPlayers)
    then applyLeaveRefund c caller p.burned_tokens else c).pending_moves tid
    = mapDel c.pending_moves tid
  split
  · rw [applyLeaveRefund_pending_moves]
  · rfl

theorem findPlayerIdx_account (l : List BlackjackPlayer) (a : AccountId)
    (i : Nat) (p : BlackjackPlayer) (h : findPlayerIdx l a = some (i, p)) :
    p.account_id = a := by
  induction l generalizing i with
  | nil => simp [findPlayerIdx] at h
  | cons hd tl ih =>
      by_cases hhd : hd.account_id = a
      · simp only [findPlayerIdx, if_pos hhd] at h
        cases h
        exact hhd
      · simp only [findPlayerIdx, if_neg hhd] at h
        cases hfd : findPlayerIdx tl a with
        | none => rw [hfd] at h; cases h
        | some v =>
            rw [hfd] at h
            cases h
            exact ih _ hfd

theorem findPlayerIdx_getElem (l : List BlackjackPlayer) (a : AccountId)
    (i : Nat) (p : BlackjackPlayer) (h : findPlayerIdx l a = some (i, p)) :
    l.get? i = some p := by
  induction l generalizing i with
  | nil => simp [findPlayerIdx] at h
  | cons hd tl ih =>
      by_cases hhd : hd.account_id = a
      · simp only [findPlayerIdx, if_pos hhd] at h
        cases h
        rfl
      · simp only [findPlayerIdx, if_neg hhd] at h
        cases hfd : findPlayerIdx tl a with
        | none => rw [hfd] at h; cases h
        | some v =>
            rw [hfd] at h
            cases h
            simpa [List.get?] using ih _ hfd

-- ========================================
-- C10: kick_player leaves signal queues in place on an emptied table
-- ========================================

/-- Claim C10: when kick_player removes the last seated player, the table is
reset to WaitingForPlayers with turn pointer and both deadlines cleared, but
the pending-bet and pending-move queues of the table are left unchanged;
leave_table on the same state instead removes both queues. -/
theorem kick_last_player_keeps_queues
    (c : CardsContract) (now : Nat) (tid : String) (x : AccountId)
    (table : GameTable) (p : BlackjackPlayer)
    (htab : mapGet c.game_tables tid = some table)
    (hpl : table.players = [p]) (hpx : p.account_id = x)
    (hnb : (c.pending_bets.map Prod.fst).Nodup)
    (hnm : (c.pending_moves.map Prod.fst).Nodup) :
    (∃ c1, kick_player c now tid x = (c1, true) ∧
      c1.pending_bets = c.pending_bets ∧
      c1.pending_moves = c.pending_moves ∧
      ∃ t', mapGet c1.game_tables tid = some t' ∧
        t'.players = [] ∧
        t'.state = GameState.WaitingForPlayers ∧
        t'.current_player_index = none ∧
        t'.betting_deadline = none ∧
        t'.move_deadline = none) ∧
    (∃ c2, leave_table c x now tid = Except.ok (c2, true) ∧
      mapGet c2.pending_bets tid = none ∧
      mapGet c2.pending_moves tid = none) := by
  have hfind : findPlayerIdx table.players x = some (0, p) := by
    rw [hpl]
    simp [findPlayerIdx, hpx]
  constructor
  · simp only [kick_player, htab, hfind]
    refine ⟨_, rfl, ?_, ?_, ?_⟩
    · split <;> [skip; rfl]
      split <;> rfl
    · split <;> [skip; rfl]
      split <;> rfl
    · refine ⟨_, mapGet_mapPut_same _ _ _, ?_⟩
      simp [hpl, List.eraseIdx]
  · have hemp : (table.players.eraseIdx 0).isEmpty = true := by
      rw [hpl]; rfl
    refine ⟨leaveApply c x now tid table 0 p,
      by simp only [leave_table, htab, hfind], ?_, ?_⟩
    · rw [leaveApply_pending_bets_empty _ _ _ _ _ _ _ hemp]
      exact mapGet_mapDel_same _ _ hnb
    · rw [leaveApply_pending_moves_empty _ _ _ _ _ _ _ hemp]
      exact mapGet_mapDel_same _ _ hnm

-- ========================================
-- C9: turn ownership of signal_move
-- ========================================

/-- Inversion of a successful `signal_move`: success needs the PlayerTurn
phase and the caller's seat index equal to the recorded turn pointer. -/
theorem signal_move_ok_inv (c : CardsContract) (caller : AccountId) (now : Nat)
    (tid : String) (mt : PlayerMove) (hi : Option Nat) (c' : CardsContract)
    (h : signal_move c caller now tid mt hi = Except.ok (c', true)) :
    ∃ table i p, mapGet c.game_tables tid = some table ∧
      table.state = GameState.PlayerTurn ∧
      findPlayerIdx table.players caller = some (i, p) ∧
      table.current_player_index = some i := by
  unfold signal_move at h
  split at h
  · simp at h
  next table htab =>
    split at h
    next h1 => simp at h
    next h1 =>
      split at h
      next h2 => simp at h
      next h2 =>
        split at h
        next hfind => simp at h
        next pi player hfind =>
          split at h
          next hcpi => simp at h
          next cur hcpi =>
            split at h
            next h3 => simp at h
            next h3 =>
              have hpc : pi = cur := not_not.mp h3
              exact ⟨table, pi, player, htab, not_not.mp h1, hfind,
                by rw [hcpi, hpc]⟩

/-- Claim C9: signal_move succeeds only when the table is in PlayerTurn and
the caller's seat index equals the recorded current_player_index, and this
turn check holds immediately after any admin override of the current player:
right after set_current_player_admin installs account X, a successful move
can only come from X itself — any other caller fails the turn check. -/
theorem signal_move_turn_ownership (c : CardsContract) (caller : AccountId)
    (now : Nat) (tid : String) (mt : PlayerMove) (hi : Option Nat)
    (c' : CardsContract) :
    (signal_move c caller now tid mt hi = Except.ok (c', true) →
      ∃ table i p, mapGet c.game_tables tid = some table ∧
        table.state = GameState.PlayerTurn ∧
        findPlayerIdx table.players caller = some (i, p) ∧
        table.current_player_index = some i) ∧
    (∀ (cB : CardsContract) (X : AccountId),
      set_current_player_admin c now tid X = (cB, true) →
      signal_move cB caller now tid mt hi = Except.ok (c', true) →
      caller = X) := by
  refine ⟨signal_move_ok_inv c caller now tid mt hi c', ?_⟩
  intro cB X hadm hmove
  unfold set_current_player_admin at hadm
  split at hadm
  · simp at hadm
  next table htab =>
    split at hadm
    next => simp at hadm
    next idx q hfindX =>
      have hg : mapGet cB.game_tables tid = some ({ table with
          current_player_index := some idx
          move_deadline := some (now + c.game_config.move_timeout_ms * 1000000)
          last_activity := now }) := by
        have h0 := congrArg (fun r => mapGet r.1.game_tables tid) hadm
        simpa [mapGet_mapPut_same] using h0.symm
      obtain ⟨tableB, i, p, htabB, -, hfind, hcpi⟩ :=
        signal_move_ok_inv cB caller now tid mt hi c' hmove
      rw [hg] at htabB
      have htB : ({ table with
          current_player_index := some idx
          move_deadline := some (now + c.game_config.move_timeout_ms * 1000000)
          last_activity := now } : GameTable) = tableB := by
        injection htabB
      have hfind2 : findPlayerIdx table.players caller = some (i, p) := by
        rw [← htB] at hfind
        exact hfind
      have hidx2 : (some idx : Option Nat) = some i := by
        rw [← htB] at hcpi
        exact hcpi
      have hidx : idx = i := by injection hidx2
      subst hidx
      have hgp : table.players.get? idx = some p :=
        findPlayerIdx_getElem _ _ _ _ hfind2
      have hgq : table.players.get? idx = some q :=
        findPlayerIdx_getElem _ _ _ _ hfindX
      have hpq : p = q := by
        rw [hgp] at hgq
        injection hgq
      have h1 : p.account_id = caller := findPlayerIdx_account _ _ _ _ hfind2
      have h2 : q.account_id = X := findPlayerIdx_account _ _ _ _ hfindX
      rw [← h1, hpq, h2]

/-- Witness for C9 at a concrete state: bob's Stand at his own turn
succeeds, and that success certifies the turn-ownership facts. -/
theorem signal_move_turn_ownership_witness :
    ∃ table i p, mapGet exMidRound.game_tables "t" = some table ∧
      table.state = GameState.PlayerTurn ∧
      findPlayerIdx table.players "bob.near" = some (i, p) ∧
      table.current_player_index = some i := by
  have h := (signal_move_turn_ownership exMidRound "bob.near" 55 "t"
    PlayerMove.Stand none
    (match signal_move exMidRound "bob.near" 55 "t" PlayerMove.Stand none with
      | Except.ok (cr, _) => cr
      | Except.error _ => exMidRound)).1
  exact h rfl

/-- Witness for C10 at a concrete state. -/
theorem kick_last_player_keeps_queues_witness :
    (kick_player exMidRound 5 "t" "bob.near").2 = true ∧
    (leave_table exMidRound "bob.near" 5 "t").isOk = true := by
  obtain ⟨⟨c1, hk, -, -, -⟩, ⟨c2, hl, -, -⟩⟩ :=
    kick_last_player_keeps_queues exMidRound 5 "t" "bob.near" exTableTurn exPlayerBob
      rfl rfl rfl (by decide) (by decide)
  exact ⟨by rw [hk], by rw [hl]; rfl⟩

-- ========================================
-- Crediting-loop lemmas for settlement
-- ========================================

theorem mapGet_mapPut_isSome {K V : Type} [DecidableEq K]
    (m : List (K × V)) (k : K) (v : V) (hk : (mapGet m k).isSome = true)
    (x : K) : (mapGet (mapPut m k v) x).isSome = (mapGet m x).isSome := by
  by_cases hx : k = x
  · subst hx
    rw [mapGet_mapPut_same]
    simp [hk]
  · rw [mapGet_mapPut_other _ _ _ _ hx]

theorem resolvableWinningsSum_congr (ws : List PlayerWinning)
    (a b : List (AccountId × UserAccount))
    (h : ∀ k, (mapGet a k).isSome = (mapGet b k).isSome) :
    resolvableWinningsSum a ws = resolvableWinningsSum b ws := by
  induction ws with
  | nil => rfl
  | cons w rest ih =>
      simp only [resolvableWinningsSum, List.map_cons, List.sum_cons] at ih ⊢
      rw [ih, h w.account_id]

theorem creditFold_mapGet (ws : List PlayerWinning) :
    ∀ (accs : List (AccountId × UserAccount)) (n : Nat) (x : AccountId)
      (ua : UserAccount), mapGet accs x = some ua →
    mapGet (ws.foldl creditStep (accs, n)).1 x
      = some { ua with balance := ua.balance + winningsFor ws x } := by
  induction ws with
  | nil =>
      intro accs n x ua h
      simpa [winningsFor] using h
  | cons w rest ih =>
      intro accs n x ua h
      simp only [List.foldl_cons]
      by_cases hx : w.account_id = x
      · rw [show creditStep (accs, n) w
          = (mapPut accs x { ua with balance := ua.balance + w.winnings },
             n + w.winnings) by simp [creditStep, hx, h]]
        rw [ih _ _ _ _ (mapGet_mapPut_same accs x _)]
        simp [winningsFor, hx, Nat.add_assoc]
      · cases hres : mapGet accs w.account_id with
        | some ub =>
            rw [show creditStep (accs, n) w
              = (mapPut accs w.account_id
                  { ub with balance := ub.balance + w.winnings },
                 n + w.winnings) by simp [creditStep, hres]]
            rw [ih _ _ _ _ (by rw [mapGet_mapPut_other _ _ _ _ hx]; exact h)]
            simp [winningsFor, hx]
        | none =>
            rw [show creditStep (accs, n) w = (accs, n) by simp [creditStep, hres]]
            rw [ih _ _ _ _ h]
            simp [winningsFor, hx]

theorem creditFold_snd (ws : List PlayerWinning) :
    ∀ (accs : List (AccountId × UserAccount)) (n : Nat),
    (ws.foldl creditStep (accs, n)).2 = n + resolvableWinningsSum accs ws := by
  induction ws with
  | nil =>
      intro accs n
      simp [resolvableWinningsSum]
  | cons w rest ih =>
      intro accs n
      simp only [List.foldl_cons]
      cases hres : mapGet accs w.account_id with
      | some ub =>
          rw [show creditStep (accs, n) w
            = (mapPut accs w.account_id
                { ub with balance := ub.balance + w.winnings },
               n + w.winnings) by simp [creditStep, hres]]
          rw [ih]
          rw [resolvableWinningsSum_congr rest _ accs
            (mapGet_mapPut_isSome accs w.account_id _ (by rw [hres]; rfl))]
          simp only [resolvableWinningsSum, List.map_cons, List.sum_cons, hres]
          simp
          omega
      | none =>
          rw [show creditStep (accs, n) w = (accs, n) by simp [creditStep, hres]]
          rw [ih]
          simp only [resolvableWinningsSum, List.map_cons, List.sum_cons, hres]
          simp

/-- A successful settlement in one package: the exact result state of
`distribute_winnings` when the round-number guard passes. -/
theorem distribute_winnings_ok (c : CardsContract) (now : Nat)
    (d : WinningsDistribution) (table : GameTable)
    (htab : mapGet c.game_tables d.table_id = some table)
    (hge : table.round_number ≤ d.round_number) :
    ∃ c1, distribute_winnings c now d = Except.ok (c1, true) ∧
      c1.accounts = (creditWinnings c.accounts d.distributions).1 ∧
      c1.total_supply = c.total_supply + resolvableWinningsSum c.accounts d.distributions ∧
      mapGet c1.game_tables d.table_id = some (distTableUpdate now table) ∧
      mapGet c1.pending_bets d.table_id = some [] ∧
      mapGet c1.pending_moves d.table_id = some [] := by
  simp only [distribute_winnings, htab]
  rw [if_neg (by omega)]
  refine ⟨_, rfl, rfl, ?_, ?_, ?_, ?_⟩
  · show c.total_supply + (creditWinnings c.accounts d.distributions).2 = _
    unfold creditWinnings
    rw [creditFold_snd]
    omega
  · exact mapGet_mapPut_same _ _ _
  · exact mapGet_mapPut_same _ _ _
  · exact mapGet_mapPut_same _ _ _

-- ========================================
-- C2: round-number guard of settlement
-- ========================================

/-- Claim C2: a distribution with round_number strictly below the table's
round number always fails (aborts, crediting nothing, changing nothing);
any round_number at or above the current round is accepted — so a batch
stamped one above the current round passes the guard twice in a row, each
submission crediting its payouts again. -/
theorem distribute_round_number_guard (c : CardsContract) (now now2 : Nat)
    (d : WinningsDistribution) (table : GameTable)
    (htab : mapGet c.game_tables d.table_id = some table) :
    (d.round_number < table.round_number →
      distribute_winnings c now d
        = Except.error "Cannot distribute winnings for past rounds") ∧
    (table.round_number ≤ d.round_number →
      ∃ c1, distribute_winnings c now d = Except.ok (c1, true)) ∧
    (d.round_number = table.round_number + 1 →
      ∃ c1 c2, distribute_winnings c now d = Except.ok (c1, true) ∧
        distribute_winnings c1 now2 d = Except.ok (c2, true) ∧
        ∀ x ua, mapGet c.accounts x = some ua →
          get_balance c2 x = ua.balance + 2 * winningsFor d.distributions x) := by
  refine ⟨?_, ?_, ?_⟩
  · intro hlt
    simp only [distribute_winnings, htab, if_pos hlt]
  · intro hge
    obtain ⟨c1, h1, -⟩ := distribute_winnings_ok c now d table htab hge
    exact ⟨c1, h1⟩
  · intro heq
    obtain ⟨c1, h1, hacc1, -, htab1, -, -⟩ :=
      distribute_winnings_ok c now d table htab (by omega)
    obtain ⟨c2, h2, hacc2, -, -, -, -⟩ :=
      distribute_winnings_ok c1 now2 d (distTableUpdate now table) htab1
        (by show table.round_number + 1 ≤ d.round_number; omega)
    refine ⟨c1, c2, h1, h2, ?_⟩
    intro x ua hx
    have hm1 : mapGet c1.accounts x
        = some { ua with balance := ua.balance + winningsFor d.distributions x } := by
      rw [hacc1]
      exact creditFold_mapGet _ _ _ _ _ hx
    have hm2 : mapGet c2.accounts x
        = some { ua with balance :=
            ua.balance + winningsFor d.distributions x + winningsFor d.distributions x } := by
      rw [hacc2]
      exact creditFold_mapGet _ _ _ _ _ hm1
    simp [get_balance, hm2]
    omega

/-- Witness for C2: the stale batch aborts; the round-2 batch settles twice
on a round-1 table, paying bob 100 each time (balance 100 becomes 300). -/
theorem distribute_round_number_guard_witness :
    distribute_winnings exMidRound 99 exDistPast
      = Except.error "Cannot distribute winnings for past rounds" ∧
    distribute_winnings exMidRound 99 exDistNext = Except.ok (exDouble1, true) ∧
    distribute_winnings exDouble1 100 exDistNext = Except.ok (exDouble2, true) ∧
    get_balance exDouble2 "bob.near" = 300 := by
  have hpast := (distribute_round_number_guard exMidRound 99 100 exDistPast
    exTableTurn rfl).1 (by decide)
  obtain ⟨c1, c2, h1, h2, hbal⟩ := (distribute_round_number_guard exMidRound 99 100
    exDistNext exTableTurn rfl).2.2 rfl
  have e1 : exDouble1 = c1 := by
    unfold exDouble1
    rw [h1]
  have e2 : exDouble2 = c2 := by
    unfold exDouble2
    rw [e1, h2]
  refine ⟨hpast, by rw [e1]; exact h1, by rw [e1, e2]; exact h2, ?_⟩
  rw [e2]
  have := hbal "bob.near" { UserAccount.default with balance := 100 } rfl
  simpa using this

-- ========================================
-- C3: effects of a successful settlement
-- ========================================

/-- Counterexample for C3: settling the current round leaves bob's
rounds-played counter at 0 — it is not incremented as claimed. -/
theorem distribute_rounds_played_counterexample :
    distribute_winnings exMidRound 99 exDistCur = Except.ok (exSettleCur, true) ∧
    (mapGet exSettleCur.game_tables "t").map
      (fun t => t.players.map (fun p => p.rounds_played)) = some [0] ∧
    (mapGet exSettleCur.game_tables "t").map
      (fun t => t.players.map (fun p => p.rounds_played)) ≠ some [1] := by
  refine ⟨rfl, rfl, by decide⟩

/-- Claim C3 (amended): on every successful settlement, each resolvable
account in the batch gains exactly its summed winnings, total_supply grows
by the winnings of the resolvable entries (unresolvable entries are skipped
without failing the batch), every seated player is reset — current-round
burn zeroed and pending move cleared, with the rounds-played counter left
unchanged — the round number increments, the state becomes RoundEnded, and
both signal queues of the table become empty. -/
theorem distribute_settlement_effects (c : CardsContract) (now : Nat)
    (d : WinningsDistribution) (table : GameTable)
    (htab : mapGet c.game_tables d.table_id = some table)
    (hge : table.round_number ≤ d.round_number) :
    ∃ c1, distribute_winnings c now d = Except.ok (c1, true) ∧
      (∀ x ua, mapGet c.accounts x = some ua →
        get_balance c1 x = ua.balance + winningsFor d.distributions x) ∧
      c1.total_supply = c.total_supply + resolvableWinningsSum c.accounts d.distributions ∧
      (∃ t', mapGet c1.game_tables d.table_id = some t' ∧
        (∀ p ∈ t'.players, p.burned_tokens = 0 ∧ p.pending_move = none) ∧
        t'.players.map (fun p => p.rounds_played)
          = table.players.map (fun p => p.rounds_played) ∧
        t'.round_number = table.round_number + 1 ∧
        t'.state = GameState.RoundEnded) ∧
      mapGet c1.pending_bets d.table_id = some [] ∧
      mapGet c1.pending_moves d.table_id = some [] := by
  obtain ⟨c1, h1, hacc, hsup, htab1, hqb, hqm⟩ :=
    distribute_winnings_ok c now d table htab hge
  refine ⟨c1, h1, ?_, hsup, ⟨distTableUpdate now table, htab1, ?_, ?_, rfl, rfl⟩,
    hqb, hqm⟩
  · intro x ua hx
    have hm : mapGet c1.accounts x
        = some { ua with balance := ua.balance + winningsFor d.distributions x } := by
      rw [hacc]
      exact creditFold_mapGet _ _ _ _ _ hx
    simp [get_balance, hm]
  · intro p hp
    simp only [distTableUpdate, List.mem_map] at hp
    obtain ⟨q, -, hq⟩ := hp
    rw [← hq]
    simp [resetPlayerForNextRound]
  · show (table.players.map (resetPlayerForNextRound now)).map _ = _
    rw [List.map_map]
    rfl

/-- Witness for C3 (amended) at the concrete mid-round state. -/
theorem distribute_settlement_effects_witness :
    distribute_winnings exMidRound 99 exDistCur = Except.ok (exSettleCur, true) ∧
    get_balance exSettleCur "bob.near" = 200 ∧
    exSettleCur.total_supply = 250 := by
  obtain ⟨c1, h1, hbal, hsup, -, -, -⟩ :=
    distribute_settlement_effects exMidRound 99 exDistCur exTableTurn rfl
      (by decide)
  have e1 : exSettleCur = c1 := by
    unfold exSettleCur
    rw [h1]
  refine ⟨by rw [e1]; exact h1, ?_, ?_⟩
  · rw [e1]
    have := hbal "bob.near" { UserAccount.default with balance := 100 } rfl
    simpa using this
  · rw [e1, hsup]
    decide

-- ========================================
-- C4: effects and ordering of a successful place_bet
-- ========================================

theorem get_balance_eq (c : CardsContract) (x : AccountId) (u : UserAccount)
    (h : mapGet c.accounts x = some u) : get_balance c x = u.balance := by
  simp [get_balance, h]

theorem error_ne_okTrue {s : String} {x : CardsContract × Bool}
    (h : (Except.error s : Except String (CardsContract × Bool)) = Except.ok x) :
    False :=
  Except.noConfusion h

theorem okFalse_ne_okTrue {c c' : CardsContract}
    (h : (Except.ok (c, false) : Except String (CardsContract × Bool))
      = Except.ok (c', true)) : False := by
  injection h with h1
  injection h1 with hA hB
  exact Bool.noConfusion hB

theorem list_get?_set_self {α : Type} (l : List α) (i : Nat) (p q : α)
    (h : l.get? i = some p) : (l.set i q).get? i = some q := by
  induction l generalizing i with
  | nil => simp [List.get?] at h
  | cons hd tl ih =>
      cases i with
      | zero => rfl
      | succ n => exact ih n h

set_option maxHeartbeats 1600000 in
/-- Claim C4: whenever place_bet returns true for amount A, the caller's
balance drops by exactly A, total_supply drops by A, the contract-wide
betting-burn statistic rises by A, the caller's current-round stake becomes
A, and exactly one BetSignal with amount A is appended to the table's
queue; the final state factors as table-writeback of appendBetSignal of
applyBetDebit, with the debited intermediate state already showing the
reduced balance and the untouched queue — a queue reader can never see an
unfunded bet. -/
theorem place_bet_effects (c : CardsContract) (caller : AccountId) (now : Nat)
    (tid : String) (A : Nat) (c' : CardsContract)
    (h : place_bet c caller now tid A = Except.ok (c', true)) :
    ∃ table i p ua,
      mapGet c.game_tables tid = some table ∧
      findPlayerIdx table.players caller = some (i, p) ∧
      mapGet c.accounts caller = some ua ∧
      A ∈ c.config.valid_burn_amounts ∧
      get_balance c' caller + A = get_balance c caller ∧
      c'.total_supply + A = c.total_supply ∧
      c'.blackjack_stats.total_tokens_burned_betting
        = c.blackjack_stats.total_tokens_burned_betting + A ∧
      (∃ t' p', mapGet c'.game_tables tid = some t' ∧
        t'.players.get? i = some p' ∧ p'.burned_tokens = A) ∧
      mapGet c'.pending_bets tid
        = some ((mapGet c.pending_bets tid).getD []
            ++ [{ player_account := caller, table_id := tid, amount := A,
                  timestamp := now, seat_number := p.seat_number }]) ∧
      c' = { appendBetSignal (applyBetDebit c caller ua A) tid
              { player_account := caller, table_id := tid, amount := A,
                timestamp := now, seat_number := p.seat_number } with
             game_tables := mapPut c.game_tables tid
               ({ table with
                  players := table.players.set i
                    ({ p with
                       burned_tokens := A
                       total_burned_this_session := p.total_burned_this_session + A
                       last_action_time := now })
                  last_activity := now }) } ∧
      get_balance (applyBetDebit c caller ua A) caller + A = get_balance c caller ∧
      (applyBetDebit c caller ua A).pending_bets = c.pending_bets := by
  cases htab : mapGet c.game_tables tid with
  | none =>
      simp only [place_bet, htab] at h
      split at h
      next => exact (error_ne_okTrue h).elim
      split at h
      next => exact (error_ne_okTrue h).elim
      exact (okFalse_ne_okTrue h).elim
  | some table =>
    cases hfind : findPlayerIdx table.players caller with
    | none =>
        simp only [place_bet, htab, hfind] at h
        split at h
        next => exact (error_ne_okTrue h).elim
        split at h
        next => exact (error_ne_okTrue h).elim
        split at h
        next => exact (error_ne_okTrue h).elim
        split at h
        next => exact (error_ne_okTrue h).elim
        exact (okFalse_ne_okTrue h).elim
    | some ip =>
        obtain ⟨i, p⟩ := ip
        cases hua : mapGet c.accounts caller with
        | none =>
            simp only [place_bet, htab, hfind, hua] at h
            split at h
            next => exact (error_ne_okTrue h).elim
            split at h
            next => exact (error_ne_okTrue h).elim
            split at h
            next => exact (error_ne_okTrue h).elim
            split at h
            next => exact (error_ne_okTrue h).elim
            split at h
            next => exact (error_ne_okTrue h).elim
            split at h
            next => exact (error_ne_okTrue h).elim
            split at h
            next => exact (error_ne_okTrue h).elim
            split at h
            next => exact (error_ne_okTrue h).elim
            exact (error_ne_okTrue h).elim
        | some ua =>
            simp only [place_bet, htab, hfind, hua] at h
            split at h
            next => exact (error_ne_okTrue h).elim
            split at h
            next => exact (error_ne_okTrue h).elim
            split at h
            next => exact (error_ne_okTrue h).elim
            split at h
            next => exact (error_ne_okTrue h).elim
            split at h
            next => exact (error_ne_okTrue h).elim
            split at h
            next => exact (error_ne_okTrue h).elim
            split at h
            next => exact (error_ne_okTrue h).elim
            split at h
            next => exact (error_ne_okTrue h).elim
            split at h
            next => exact (error_ne_okTrue h).elim
            split at h
            next => exact (error_ne_okTrue h).elim
            have hc2 : placeBetApply c caller now tid A table i p ua = c' :=
              congrArg Prod.fst (Except.ok.inj h)
            subst hc2
            have hmem : A ∈ c.config.valid_burn_amounts :=
              not_not.mp ‹¬(A ∉ c.config.valid_burn_amounts)›
            have hbal : A ≤ ua.balance := Nat.le_of_not_lt ‹¬(ua.balance < A)›
            have hsup : A ≤ c.total_supply := Nat.le_of_not_lt ‹¬(c.total_supply < A)›
            refine ⟨table, i, p, ua, rfl, hfind, rfl, hmem, ?_, ?_, rfl, ?_, ?_,
              rfl, ?_, rfl⟩
            · have hm : mapGet (placeBetApply c caller now tid A table i p ua).accounts
                  caller = some { ua with
                    balance := ua.balance - A
                    total_burned := ua.total_burned + A } :=
                mapGet_mapPut_same _ _ _
              rw [get_balance_eq _ _ _ hm, get_balance_eq _ _ _ hua]
              show ua.balance - A + A = ua.balance
              omega
            · show c.total_supply - A + A = c.total_supply
              omega
            · refine ⟨_, { p with
                  burned_tokens := A
                  total_burned_this_session := p.total_burned_this_session + A
                  last_action_time := now }, mapGet_mapPut_same _ _ _, ?_, rfl⟩
              exact list_get?_set_self _ _ _ _ (findPlayerIdx_getElem _ _ _ _ hfind)
            · exact mapGet_mapPut_same _ _ _
            · have hm : mapGet (applyBetDebit c caller ua A).accounts caller
                  = some { ua with
                    balance := ua.balance - A
                    total_burned := ua.total_burned + A } :=
                mapGet_mapPut_same _ _ _
              rw [get_balance_eq _ _ _ hm, get_balance_eq _ _ _ hua]
              show ua.balance - A + A = ua.balance
              omega

/-- Witness for C4: alice bets 50 of her 1000 at the Betting table. -/
theorem place_bet_effects_witness :
    ∃ table i p ua,
      mapGet exFunded.game_tables "t" = some table ∧
      findPlayerIdx table.players "alice.near" = some (i, p) ∧
      mapGet exFunded.accounts "alice.near" = some ua ∧
      50 ∈ exFunded.config.valid_burn_amounts ∧
      get_balance exBet50 "alice.near" + 50 = get_balance exFunded "alice.near" ∧
      exBet50.total_supply + 50 = exFunded.total_supply ∧
      exBet50.blackjack_stats.total_tokens_burned_betting
        = exFunded.blackjack_stats.total_tokens_burned_betting + 50 := by
  obtain ⟨table, i, p, ua, h1, h2, h3, h4, h5, h6, h7, -⟩ :=
    place_bet_effects exFunded "alice.near" 7 "t" 50 exBet50 rfl
  exact ⟨table, i, p, ua, h1, h2, h3, h4, h5, h6, h7⟩

-- ========================================
-- C5: join failure conditions and success effects
-- ========================================

/-- Claim C5: join returns false with all state unchanged exactly when the
seat index is outside 1..=3, the storage deposit is insufficient, the table
is missing, inactive, or full, the seat is occupied, or the account is
already seated; on success the new player's state is derived from the table
phase (WaitingForPlayers/Betting gives Active, the three mid-round phases
give Observing, RoundEnded gives WaitingForNextRound) and the
joined-players statistic increments. -/
theorem join_table_characterization (c : CardsContract) (caller : AccountId)
    (now : Nat) (tid : String) (sn : Nat) :
    (join_table c caller now tid sn = Except.ok (c, false) ↔
      ((sn < 1 ∨ 3 < sn) ∨
       ¬ has_sufficient_blackjack_storage
           ((mapGet c.storage_deposits caller).getD 0) caller ∨
       mapGet c.game_tables tid = none ∨
       (∃ table, mapGet c.game_tables tid = some table ∧
         (table.is_active ≠ true ∨
          table.max_players ≤ table.players.length ∨
          table.players.any (fun p => p.seat_number = sn) = true ∨
          table.players.any (fun p => p.account_id = caller) = true)))) ∧
    (∀ table, mapGet c.game_tables tid = some table →
      ¬ (sn < 1 ∨ 3 < sn) →
      has_sufficient_blackjack_storage
        ((mapGet c.storage_deposits caller).getD 0) caller = true →
      table.is_active = true →
      table.players.length < table.max_players →
      table.players.any (fun p => p.seat_number = sn) = false →
      table.players.any (fun p => p.account_id = caller) = false →
      ∃ c2, join_table c caller now tid sn = Except.ok (c2, true) ∧
        c2.blackjack_stats.total_players_joined
          = c.blackjack_stats.total_players_joined + 1 ∧
        ∃ t2, mapGet c2.game_tables tid = some t2 ∧
          ∃ q, q ∈ t2.players ∧ q.account_id = caller ∧ q.seat_number = sn ∧
            ((table.state = GameState.WaitingForPlayers ∨
              table.state = GameState.Betting) → q.state = PlayerState.Active) ∧
            ((table.state = GameState.DealingInitialCards ∨
              table.state = GameState.PlayerTurn ∨
              table.state = GameState.DealerTurn) →
                q.state = PlayerState.Observing) ∧
            (table.state = GameState.RoundEnded →
              q.state = PlayerState.WaitingForNextRound)) := by
  by_cases h1 : sn < 1 ∨ 3 < sn
  · have hres : join_table c caller now tid sn = Except.ok (c, false) := by
      simp only [join_table, if_pos h1]
    exact ⟨⟨fun _ => Or.inl h1, fun _ => hres⟩,
      fun table _ hns => absurd h1 hns⟩
  · by_cases h2 : has_sufficient_blackjack_storage
        ((mapGet c.storage_deposits caller).getD 0) caller = true
    swap
    · have hres : join_table c caller now tid sn = Except.ok (c, false) := by
        simp only [join_table, if_neg h1, if_pos h2]
      exact ⟨⟨fun _ => Or.inr (Or.inl h2), fun _ => hres⟩,
        fun table _ _ hstor => absurd hstor h2⟩
    · cases htab : mapGet c.game_tables tid with
      | none =>
          have hres : join_table c caller now tid sn = Except.ok (c, false) := by
            simp only [join_table, if_neg h1, if_neg (not_not_intro h2), htab]
          refine ⟨⟨fun _ => Or.inr (Or.inr (Or.inl rfl)), fun _ => hres⟩, ?_⟩
          intro table htab2
          exact Option.noConfusion htab2
      | some table =>
          by_cases h4 : table.is_active = true
          swap
          · have hres : join_table c caller now tid sn = Except.ok (c, false) := by
              simp only [join_table, if_neg h1, if_neg (not_not_intro h2), htab,
                if_pos h4]
            refine ⟨⟨fun _ => Or.inr (Or.inr (Or.inr ⟨table, rfl, Or.inl h4⟩)),
              fun _ => hres⟩, ?_⟩
            intro table2 htab2
            have ht : table = table2 := by injection htab2
            subst ht
            intro _ _ hact
            exact absurd hact h4
          · by_cases h5 : table.max_players ≤ table.players.length
            · have hres : join_table c caller now tid sn = Except.ok (c, false) := by
                simp only [join_table, if_neg h1, if_neg (not_not_intro h2), htab,
                  if_neg (not_not_intro h4), if_pos h5]
              refine ⟨⟨fun _ => Or.inr (Or.inr (Or.inr ⟨table, rfl,
                Or.inr (Or.inl h5)⟩)), fun _ => hres⟩, ?_⟩
              intro table2 htab2
              have ht : table = table2 := by injection htab2
              subst ht
              intro _ _ _ hroom
              omega
            · by_cases h6 : table.players.any (fun p => p.seat_number = sn) = true
              · have hres : join_table c caller now tid sn
                    = Except.ok (c, false) := by
                  simp only [join_table, if_neg h1, if_neg (not_not_intro h2), htab,
                    if_neg (not_not_intro h4), if_neg h5, if_pos h6]
                refine ⟨⟨fun _ => Or.inr (Or.inr (Or.inr ⟨table, rfl,
                  Or.inr (Or.inr (Or.inl h6))⟩)), fun _ => hres⟩, ?_⟩
                intro table2 htab2
                have ht : table = table2 := by injection htab2
                subst ht
                intro _ _ _ _ hseat
                rw [h6] at hseat
                exact Bool.noConfusion hseat
              · by_cases h7 : table.players.any
                    (fun p => p.account_id = caller) = true
                · have hres : join_table c caller now tid sn
                      = Except.ok (c, false) := by
                    simp only [join_table, if_neg h1, if_neg (not_not_intro h2),
                      htab, if_neg (not_not_intro h4), if_neg h5, if_neg h6,
                      if_pos h7]
                  refine ⟨⟨fun _ => Or.inr (Or.inr (Or.inr ⟨table, rfl,
                    Or.inr (Or.inr (Or.inr h7))⟩)), fun _ => hres⟩, ?_⟩
                  intro table2 htab2
                  have ht : table = table2 := by injection htab2
                  subst ht
                  intro _ _ _ _ _ hacct
                  rw [h7] at hacct
                  exact Bool.noConfusion hacct
                · have hres : join_table c caller now tid sn
                      = Except.ok (joinApply c caller now tid sn table, true) := by
                    simp only [join_table, if_neg h1, if_neg (not_not_intro h2),
                      htab, if_neg (not_not_intro h4), if_neg h5, if_neg h6,
                      if_neg h7]
                  constructor
                  · constructor
                    · intro hL
                      exact (okFalse_ne_okTrue (hL.symm.trans hres)).elim
                    · rintro (hbad | hbad | hbad | ⟨table2, htab2, hbad⟩)
                      · exact absurd hbad h1
                      · exact absurd h2 hbad
                      · exact Option.noConfusion hbad
                      · have ht : table = table2 := by injection htab2
                        subst ht
                        rcases hbad with hbad | hbad | hbad | hbad
                        · exact absurd h4 hbad
                        · exact absurd hbad h5
                        · exact absurd hbad h6
                        · exact absurd hbad h7
                  · intro table2 htab2
                    have ht : table = table2 := by injection htab2
                    subst ht
                    intro _ _ _ _ _ _
                    refine ⟨joinApply c caller now tid sn table, hres, rfl,
                      _, mapGet_mapPut_same _ _ _, ?_⟩
                    refine ⟨_, List.mem_append_right _ (List.mem_singleton_self _),
                      rfl, rfl, ?_, ?_, ?_⟩
                    · rintro (hst | hst) <;> rw [hst] <;> rfl
                    · rintro (hst | hst | hst) <;> rw [hst] <;> rfl
                    · intro hst
                      rw [hst]
                      rfl

/-- Witness for C5: alice joins seat 2 of the funded Betting table and
comes in Active; joining an out-of-range seat returns false. -/
theorem join_table_characterization_witness :
    join_table exFunded "carol.near" 9 "t" 7 = Except.ok (exFunded, false) ∧
    (∃ c2, join_table exFunded "carol.near" 9 "t" 2 = Except.ok (c2, true) ∧
      c2.blackjack_stats.total_players_joined
        = exFunded.blackjack_stats.total_players_joined + 1) := by
  constructor
  · exact (join_table_characterization exFunded "carol.near" 9 "t" 7).1.mpr
      (Or.inl (by decide))
  · obtain ⟨c2, hj, hstat, -⟩ :=
      (join_table_characterization exFunded "carol.near" 9 "t" 2).2
        exTableBetting rfl (by decide) (by decide) (by decide) (by decide)
        (by decide) (by decide)
    exact ⟨c2, hj, hstat⟩

-- ========================================
-- Helper lemmas for burn reversal (C6)
-- ========================================

theorem get_balance_congr (c1 c2 : CardsContract) (x : AccountId)
    (h : mapGet c1.accounts x = mapGet c2.accounts x) :
    get_balance c1 x = get_balance c2 x := by
  unfold get_balance
  rw [h]

/-- join_table either soft-fails unchanged or succeeds via `joinApply`. -/
theorem join_table_cases (c : CardsContract) (caller : AccountId) (now : Nat)
    (tid : String) (sn : Nat) :
    join_table c caller now tid sn = Except.ok (c, false) ∨
    ∃ table, join_table c caller now tid sn
      = Except.ok (joinApply c caller now tid sn table, true) := by
  by_cases h1 : sn < 1 ∨ 3 < sn
  · left
    simp only [join_table, if_pos h1]
  · by_cases h2 : ¬ has_sufficient_blackjack_storage
        ((mapGet c.storage_deposits caller).getD 0) caller
    · left
      simp only [join_table, if_neg h1, if_pos h2]
    · cases htab : mapGet c.game_tables tid with
      | none =>
          left
          simp only [join_table, if_neg h1, if_neg h2, htab]
      | some table =>
          by_cases h4 : table.is_active ≠ true
          · left
            simp only [join_table, if_neg h1, if_neg h2, htab, if_pos h4]
          · by_cases h5 : table.max_players ≤ table.players.length
            · left
              simp only [join_table, if_neg h1, if_neg h2, htab, if_neg h4,
                if_pos h5]
            · by_cases h6 : table.players.any (fun p => p.seat_number = sn) = true
              · left
                simp only [join_table, if_neg h1, if_neg h2, htab, if_neg h4,
                  if_neg h5, if_pos h6]
              · by_cases h7 : table.players.any
                    (fun p => p.account_id = caller) = true
                · left
                  simp only [join_table, if_neg h1, if_neg h2, htab, if_neg h4,
                    if_neg h5, if_neg h6, if_pos h7]
                · right
                  exact ⟨table, by simp only [join_table, if_neg h1, if_neg h2,
                    htab, if_neg h4, if_neg h5, if_neg h6, if_neg h7]⟩

set_option maxHeartbeats 1600000 in
/-- A place_bet call that does not abort never increases any balance and
never decreases the contract-wide betting-burn statistic. -/
theorem place_bet_balance_mono (c : CardsContract) (caller : AccountId)
    (now : Nat) (tid : String) (A : Nat) (r : CardsContract × Bool)
    (h : place_bet c caller now tid A = Except.ok r) (x : AccountId) :
    get_balance r.1 x ≤ get_balance c x ∧
    c.blackjack_stats.total_tokens_burned_betting
      ≤ r.1.blackjack_stats.total_tokens_burned_betting := by
  cases htab : mapGet c.game_tables tid with
  | none =>
      simp only [place_bet, htab] at h
      split at h
      next => exact (Except.noConfusion h)
      split at h
      next => exact (Except.noConfusion h)
      cases Except.ok.inj h
      exact ⟨Nat.le_refl _, Nat.le_refl _⟩
  | some table =>
    cases hfind : findPlayerIdx table.players caller with
    | none =>
        simp only [place_bet, htab, hfind] at h
        split at h
        next => exact (Except.noConfusion h)
        split at h
        next => exact (Except.noConfusion h)
        split at h
        next => exact (Except.noConfusion h)
        split at h
        next => exact (Except.noConfusion h)
        cases Except.ok.inj h
        exact ⟨Nat.le_refl _, Nat.le_refl _⟩
    | some ip =>
        obtain ⟨i, p⟩ := ip
        cases hua : mapGet c.accounts caller with
        | none =>
            simp only [place_bet, htab, hfind, hua] at h
            split at h
            next => exact (Except.noConfusion h)
            split at h
            next => exact (Except.noConfusion h)
            split at h
            next => exact (Except.noConfusion h)
            split at h
            next => exact (Except.noConfusion h)
            split at h
            next => exact (Except.noConfusion h)
            split at h
            next => exact (Except.noConfusion h)
            split at h
            next => exact (Except.noConfusion h)
            split at h
            next => exact (Except.noConfusion h)
            exact (Except.noConfusion h)
        | some ua =>
            simp only [place_bet, htab, hfind, hua] at h
            split at h
            next => exact (Except.noConfusion h)
            split at h
            next => exact (Except.noConfusion h)
            split at h
            next => exact (Except.noConfusion h)
            split at h
            next => exact (Except.noConfusion h)
            split at h
            next => exact (Except.noConfusion h)
            split at h
            next => exact (Except.noConfusion h)
            split at h
            next => exact (Except.noConfusion h)
            split at h
            next => exact (Except.noConfusion h)
            split at h
            next => exact (Except.noConfusion h)
            split at h
            next => exact (Except.noConfusion h)
            cases Except.ok.inj h
            constructor
            · by_cases hx : caller = x
              · subst hx
                have hm : mapGet (placeBetApply c caller now tid A table i p ua).accounts
                    caller = some { ua with
                      balance := ua.balance - A
                      total_burned := ua.total_burned + A } :=
                  mapGet_mapPut_same _ _ _
                rw [get_balance_eq _ _ _ hm, get_balance_eq _ _ _ hua]
                exact Nat.sub_le _ _
              · exact Nat.le_of_eq (get_balance_congr _ _ _
                  (mapGet_mapPut_other _ _ _ _ hx))
            · exact Nat.le_add_right _ _

set_option maxHeartbeats 1600000 in
/-- A signal_move call that does not abort never increases any balance and
never decreases the contract-wide betting-burn statistic. -/
theorem signal_move_balance_mono (c : CardsContract) (caller : AccountId)
    (now : Nat) (tid : String) (mt : PlayerMove) (hi : Option Nat)
    (r : CardsContract × Bool)
    (h : signal_move c caller now tid mt hi = Except.ok r) (x : AccountId) :
    get_balance r.1 x ≤ get_balance c x ∧
    c.blackjack_stats.total_tokens_burned_betting
      ≤ r.1.blackjack_stats.total_tokens_burned_betting := by
  cases htab : mapGet c.game_tables tid with
  | none =>
      simp only [signal_move, htab] at h
      cases Except.ok.inj h
      exact ⟨Nat.le_refl _, Nat.le_refl _⟩
  | some table =>
    cases hfind : findPlayerIdx table.players caller with
    | none =>
        simp only [signal_move, htab, hfind] at h
        split at h
        next => exact (Except.noConfusion h)
        split at h
        next => exact (Except.noConfusion h)
        cases Except.ok.inj h
        exact ⟨Nat.le_refl _, Nat.le_refl _⟩
    | some ip =>
        obtain ⟨i, p⟩ := ip
        cases hcpi : table.current_player_index with
        | none =>
            simp only [signal_move, htab, hfind, hcpi] at h
            split at h
            next => exact (Except.noConfusion h)
            split at h
            next => exact (Except.noConfusion h)
            exact (Except.noConfusion h)
        | some cur =>
          cases hua : mapGet c.accounts caller with
          | none =>
              simp only [signal_move, htab, hfind, hcpi, hua] at h
              split at h
              next => exact (Except.noConfusion h)
              split at h
              next => exact (Except.noConfusion h)
              split at h
              next => exact (Except.noConfusion h)
              split at h
              next => exact (Except.noConfusion h)
              split at h
              next => exact (Except.noConfusion h)
              split at h
              next hdouble =>
                exact (Except.noConfusion h)
              cases Except.ok.inj h
              exact ⟨Nat.le_refl _, Nat.le_refl _⟩
          | some ua =>
              simp only [signal_move, htab, hfind, hcpi, hua] at h
              split at h
              next => exact (Except.noConfusion h)
              split at h
              next => exact (Except.noConfusion h)
              split at h
              next => exact (Except.noConfusion h)
              split at h
              next => exact (Except.noConfusion h)
              split at h
              next => exact (Except.noConfusion h)
              split at h
              next hdouble =>
                cases Except.ok.inj h
                constructor
                · by_cases hx : caller = x
                  · subst hx
                    have hm : mapGet (signalMoveDoubleApply c caller now tid mt hi
                        table i p ua).accounts caller = some { ua with
                          balance := ua.balance - p.burned_tokens
                          total_burned := ua.total_burned + p.burned_tokens } :=
                      mapGet_mapPut_same _ _ _
                    rw [get_balance_eq _ _ _ hm, get_balance_eq _ _ _ hua]
                    exact Nat.sub_le _ _
                  · exact Nat.le_of_eq (get_balance_congr _ _ _
                      (mapGet_mapPut_other _ _ _ _ hx))
                · exact Nat.le_add_right _ _
              cases Except.ok.inj h
              exact ⟨Nat.le_refl _, Nat.le_refl _⟩

-- ========================================
-- C6: leave refund is the only player-initiated burn reversal
-- ========================================

theorem applyLeaveRefund_resolved (c : CardsContract) (x : AccountId) (b : Nat)
    (ua : UserAccount) (h : mapGet c.accounts x = some ua) :
    applyLeaveRefund c x b = { c with
      accounts := mapPut c.accounts x { ua with balance := ua.balance + b }
      total_supply := c.total_supply + b
      blackjack_stats := { c.blackjack_stats with
        total_tokens_burned_betting :=
          c.blackjack_stats.total_tokens_burned_betting - b } } := by
  simp only [applyLeaveRefund, h]

/-- Claim C6: a player with a nonzero stake A leaving during Betting or
WaitingForPlayers gets exactly A credited back, with total_supply and the
contract burn statistic adjusted by exactly A in the opposite direction of
the burn; in every other phase leave refunds nothing; and no other
player-initiated entry point (join, place_bet, signal_move) ever increases
a balance or decreases the burn statistic — the leave refund is the only
player-initiated burn reversal. -/
theorem leave_refund_only_burn_reversal (c : CardsContract) (caller : AccountId)
    (now : Nat) (tid : String) (table : GameTable) (i : Nat)
    (p : BlackjackPlayer) (ua : UserAccount)
    (htab : mapGet c.game_tables tid = some table)
    (hfind : findPlayerIdx table.players caller = some (i, p))
    (hua : mapGet c.accounts caller = some ua)
    (hpos : 0 < p.burned_tokens)
    (hstat : p.burned_tokens ≤ c.blackjack_stats.total_tokens_burned_betting) :
    ((table.state = GameState.Betting ∨ table.state = GameState.WaitingForPlayers) →
      ∃ c1, leave_table c caller now tid = Except.ok (c1, true) ∧
        get_balance c1 caller = ua.balance + p.burned_tokens ∧
        c1.total_supply = c.total_supply + p.burned_tokens ∧
        c1.blackjack_stats.total_tokens_burned_betting + p.burned_tokens
          = c.blackjack_stats.total_tokens_burned_betting) ∧
    (¬ (table.state = GameState.Betting ∨ table.state = GameState.WaitingForPlayers) →
      ∃ c1, leave_table c caller now tid = Except.ok (c1, true) ∧
        c1.accounts = c.accounts ∧
        c1.total_supply = c.total_supply ∧
        c1.blackjack_stats = c.blackjack_stats) ∧
    (∀ (c0 : CardsContract) (a : AccountId) (t0 : Nat) (s0 : String) (n0 : Nat)
      (r : CardsContract × Bool),
      join_table c0 a t0 s0 n0 = Except.ok r → r.1.accounts = c0.accounts) ∧
    (∀ (c0 : CardsContract) (a x : AccountId) (t0 : Nat) (s0 : String) (A : Nat)
      (r : CardsContract × Bool),
      place_bet c0 a t0 s0 A = Except.ok r →
      get_balance r.1 x ≤ get_balance c0 x ∧
      c0.blackjack_stats.total_tokens_burned_betting
        ≤ r.1.blackjack_stats.total_tokens_burned_betting) ∧
    (∀ (c0 : CardsContract) (a x : AccountId) (t0 : Nat) (s0 : String)
      (mt : PlayerMove) (hi : Option Nat) (r : CardsContract × Bool),
      signal_move c0 a t0 s0 mt hi = Except.ok r →
      get_balance r.1 x ≤ get_balance c0 x ∧
      c0.blackjack_stats.total_tokens_burned_betting
        ≤ r.1.blackjack_stats.total_tokens_burned_betting) := by
  have hrefund := applyLeaveRefund_resolved c caller p.burned_tokens ua hua
  refine ⟨?_, ?_, ?_, ?_, ?_⟩
  · intro hphase
    have hcond : 0 < p.burned_tokens ∧ (table.state = GameState.Betting ∨
        table.state = GameState.WaitingForPlayers) := ⟨hpos, hphase⟩
    refine ⟨leaveApply c caller now tid table i p,
      by simp only [leave_table, htab, hfind], ?_, ?_, ?_⟩
    · have hm : mapGet (leaveApply c caller now tid table i p).accounts caller
          = some { ua with balance := ua.balance + p.burned_tokens } := by
        rw [leaveApply_accounts, if_pos hcond, hrefund]
        exact mapGet_mapPut_same _ _ _
      rw [get_balance_eq _ _ _ hm]
    · rw [leaveApply_total_supply, if_pos hcond, hrefund]
    · rw [leaveApply_stats, if_pos hcond, hrefund]
      show c.blackjack_stats.total_tokens_burned_betting - p.burned_tokens
          + p.burned_tokens = c.blackjack_stats.total_tokens_burned_betting
      omega
  · intro hphase
    have hcond : ¬ (0 < p.burned_tokens ∧ (table.state = GameState.Betting ∨
        table.state = GameState.WaitingForPlayers)) := fun hc => hphase hc.2
    refine ⟨leaveApply c caller now tid table i p,
      by simp only [leave_table, htab, hfind], ?_, ?_, ?_⟩
    · rw [leaveApply_accounts, if_neg hcond]
    · rw [leaveApply_total_supply, if_neg hcond]
    · rw [leaveApply_stats, if_neg hcond]
  · intro c0 a t0 s0 n0 r hj
    rcases join_table_cases c0 a t0 s0 n0 with hcase | ⟨table0, hcase⟩
    · rw [hcase] at hj
      cases Except.ok.inj hj
      rfl
    · rw [hcase] at hj
      cases Except.ok.inj hj
      rfl
  · intro c0 a x t0 s0 A r hpb
    exact place_bet_balance_mono c0 a t0 s0 A r hpb x
  · intro c0 a x t0 s0 mt hi r hsm
    exact signal_move_balance_mono c0 a t0 s0 mt hi r hsm x

/-- Witness for C6: alice leaves mid-betting with a 50-token stake and gets
exactly 50 back (950 becomes 1000), supply and burn stat adjusting by 50. -/
theorem leave_refund_only_burn_reversal_witness :
    leave_table exStaked "alice.near" 9 "t" = Except.ok (exLeft, true) ∧
    get_balance exLeft "alice.near" = 1000 ∧
    exLeft.total_supply = 1000 ∧
    exLeft.blackjack_stats.total_tokens_burned_betting = 0 := by
  obtain ⟨href, -, -, -, -⟩ :=
    leave_refund_only_burn_reversal exStaked "alice.near" 9 "t" exTableStaked 0
      exPlayerStaked { UserAccount.default with balance := 950 }
      rfl rfl rfl (by decide) (by decide)
  obtain ⟨c1, hl, hbal, hsup, hstat⟩ := href (Or.inl rfl)
  have e1 : exLeft = c1 := by
    unfold exLeft
    rw [hl]
  refine ⟨by rw [e1]; exact hl, by rw [e1, hbal]; rfl, by rw [e1, hsup]; rfl, ?_⟩
  rw [e1]
  have hb : exPlayerStaked.burned_tokens = 50 := rfl
  have hs : exStaked.blackjack_stats.total_tokens_burned_betting = 50 := rfl
  omega

-- ========================================
-- C1: soft-fail versus abort behavior of the player entry points
-- ========================================

theorem okTrue_ne_okFalse {x c' : CardsContract}
    (h : (Except.ok (x, true) : Except String (CardsContract × Bool))
      = Except.ok (c', false)) : False := by
  injection h with h1
  injection h1 with hA hB
  exact Bool.noConfusion hB

/-- leave_table either soft-fails unchanged or succeeds via `leaveApply`. -/
theorem leave_table_cases (c : CardsContract) (caller : AccountId) (now : Nat)
    (tid : String) :
    leave_table c caller now tid = Except.ok (c, false) ∨
    ∃ table i p, leave_table c caller now tid
      = Except.ok (leaveApply c caller now tid table i p, true) := by
  cases htab : mapGet c.game_tables tid with
  | none =>
      left
      simp only [leave_table, htab]
  | some table =>
      cases hfind : findPlayerIdx table.players caller with
      | none =>
          left
          simp only [leave_table, htab, hfind]
      | some ip =>
          right
          exact ⟨table, ip.1, ip.2, by simp only [leave_table, htab, hfind]⟩

set_option maxHeartbeats 1600000 in
/-- place_bet returns false only with the state unchanged, and only when the
table is missing or the caller is not seated at it. -/
theorem place_bet_false_inv (c : CardsContract) (caller : AccountId) (now : Nat)
    (tid : String) (A : Nat) (c' : CardsContract)
    (h : place_bet c caller now tid A = Except.ok (c', false)) :
    c' = c ∧ (mapGet c.game_tables tid = none ∨
      ∃ table, mapGet c.game_tables tid = some table ∧
        findPlayerIdx table.players caller = none) := by
  cases htab : mapGet c.game_tables tid with
  | none =>
      simp only [place_bet, htab] at h
      split at h
      next => exact (Except.noConfusion h)
      split at h
      next => exact (Except.noConfusion h)
      exact ⟨(congrArg Prod.fst (Except.ok.inj h)).symm, Or.inl rfl⟩
  | some table =>
    cases hfind : findPlayerIdx table.players caller with
    | none =>
        simp only [place_bet, htab, hfind] at h
        split at h
        next => exact (Except.noConfusion h)
        split at h
        next => exact (Except.noConfusion h)
        split at h
        next => exact (Except.noConfusion h)
        split at h
        next => exact (Except.noConfusion h)
        exact ⟨(congrArg Prod.fst (Except.ok.inj h)).symm, Or.inr ⟨table, rfl, hfind⟩⟩
    | some ip =>
        obtain ⟨i, p⟩ := ip
        cases hua : mapGet c.accounts caller with
        | none =>
            simp only [place_bet, htab, hfind, hua] at h
            split at h
            next => exact (Except.noConfusion h)
            split at h
            next => exact (Except.noConfusion h)
            split at h
            next => exact (Except.noConfusion h)
            split at h
            next => exact (Except.noConfusion h)
            split at h
            next => exact (Except.noConfusion h)
            split at h
            next => exact (Except.noConfusion h)
            split at h
            next => exact (Except.noConfusion h)
            split at h
            next => exact (Except.noConfusion h)
            exact (Except.noConfusion h)
        | some ua =>
            simp only [place_bet, htab, hfind, hua] at h
            split at h
            next => exact (Except.noConfusion h)
            split at h
            next => exact (Except.noConfusion h)
            split at h
            next => exact (Except.noConfusion h)
            split at h
            next => exact (Except.noConfusion h)
            split at h
            next => exact (Except.noConfusion h)
            split at h
            next => exact (Except.noConfusion h)
            split at h
            next => exact (Except.noConfusion h)
            split at h
            next => exact (Except.noConfusion h)
            split at h
            next => exact (Except.noConfusion h)
            split at h
            next => exact (Except.noConfusion h)
            exact (okTrue_ne_okFalse h).elim

set_option maxHeartbeats 1600000 in
/-- signal_move returns false only with the state unchanged, and only when
the table is missing, or the table is an active PlayerTurn table at which
the caller is not seated (every other validation failure aborts). -/
theorem signal_move_false_inv (c : CardsContract) (caller : AccountId)
    (now : Nat) (tid : String) (mt : PlayerMove) (hi : Option Nat)
    (c' : CardsContract)
    (h : signal_move c caller now tid mt hi = Except.ok (c', false)) :
    c' = c ∧ (mapGet c.game_tables tid = none ∨
      ∃ table, mapGet c.game_tables tid = some table ∧
        table.state = GameState.PlayerTurn ∧ table.is_active = true ∧
        findPlayerIdx table.players caller = none) := by
  cases htab : mapGet c.game_tables tid with
  | none =>
      simp only [signal_move, htab] at h
      exact ⟨(congrArg Prod.fst (Except.ok.inj h)).symm, Or.inl rfl⟩
  | some table =>
    cases hfind : findPlayerIdx table.players caller with
    | none =>
        simp only [signal_move, htab, hfind] at h
        split at h
        next => exact (Except.noConfusion h)
        next h1 =>
          split at h
          next => exact (Except.noConfusion h)
          next h2 =>
            exact ⟨(congrArg Prod.fst (Except.ok.inj h)).symm,
              Or.inr ⟨table, rfl, not_not.mp h1, not_not.mp h2, hfind⟩⟩
    | some ip =>
        obtain ⟨i, p⟩ := ip
        cases hcpi : table.current_player_index with
        | none =>
            simp only [signal_move, htab, hfind, hcpi] at h
            split at h
            next => exact (Except.noConfusion h)
            split at h
            next => exact (Except.noConfusion h)
            exact (Except.noConfusion h)
        | some cur =>
          cases hua : mapGet c.accounts caller with
          | none =>
              simp only [signal_move, htab, hfind, hcpi, hua] at h
              split at h
              next => exact (Except.noConfusion h)
              split at h
              next => exact (Except.noConfusion h)
              split at h
              next => exact (Except.noConfusion h)
              split at h
              next => exact (Except.noConfusion h)
              split at h
              next => exact (Except.noConfusion h)
              split at h
              next => exact (Except.noConfusion h)
              exact (okTrue_ne_okFalse h).elim
          | some ua =>
              simp only [signal_move, htab, hfind, hcpi, hua] at h
              split at h
              next => exact (Except.noConfusion h)
              split at h
              next => exact (Except.noConfusion h)
              split at h
              next => exact (Except.noConfusion h)
              split at h
              next => exact (Except.noConfusion h)
              split at h
              next => exact (Except.noConfusion h)
              split at h
              next => exact (okTrue_ne_okFalse h).elim
              exact (okTrue_ne_okFalse h).elim

/-- Counterexample for C1: with balance 5 and valid denominations
[10, 30, 50, 100], place_bet(5) does not return false — it aborts with
"Invalid bet amount". -/
theorem place_bet_aborts_counterexample :
    place_bet exLowBalance "alice.near" 7 "t" 5
      = Except.error "Invalid bet amount" ∧
    (place_bet exLowBalance "alice.near" 7 "t" 5).isOk = false ∧
    exLowBalance.config.valid_burn_amounts = [10, 30, 50, 100] ∧
    get_balance exLowBalance "alice.near" = 5 := by
  exact ⟨rfl, rfl, rfl, rfl⟩

/-- Claim C1 (amended): join and leave never abort — every validation
failure returns false with no state change.  place_bet and signal_move
return false (with no state change) only when the table is missing or the
caller is not seated there (for signal_move the unseated soft failure can
only arise at an active PlayerTurn table, because the state and activity
checks abort first); their other validation failures abort the call
(reverting it, so still no state change): in particular place_bet with an
amount outside the configured denominations aborts with "Invalid bet
amount" instead of returning false, and signal_move at a table not in the
PlayerTurn state aborts with "Not in player turn state". -/
theorem player_actions_soft_fail (c : CardsContract) (caller : AccountId)
    (now : Nat) (tid : String) (sn A : Nat) (mt : PlayerMove)
    (hi : Option Nat) :
    (join_table c caller now tid sn).isOk = true ∧
    (∀ c', join_table c caller now tid sn = Except.ok (c', false) → c' = c) ∧
    (leave_table c caller now tid).isOk = true ∧
    (∀ c', leave_table c caller now tid = Except.ok (c', false) → c' = c) ∧
    (∀ c', place_bet c caller now tid A = Except.ok (c', false) → c' = c ∧
      (mapGet c.game_tables tid = none ∨
       ∃ table, mapGet c.game_tables tid = some table ∧
         findPlayerIdx table.players caller = none)) ∧
    (∀ c', signal_move c caller now tid mt hi = Except.ok (c', false) → c' = c ∧
      (mapGet c.game_tables tid = none ∨
       ∃ table, mapGet c.game_tables tid = some table ∧
         table.state = GameState.PlayerTurn ∧ table.is_active = true ∧
         findPlayerIdx table.players caller = none)) ∧
    (A ∉ c.config.valid_burn_amounts →
      place_bet c caller now tid A = Except.error "Invalid bet amount") ∧
    (∀ table, mapGet c.game_tables tid = some table →
      table.state ≠ GameState.PlayerTurn →
      signal_move c caller now tid mt hi
        = Except.error "Not in player turn state") := by
  refine ⟨?_, ?_, ?_, ?_, ?_, ?_, ?_, ?_⟩
  · rcases join_table_cases c caller now tid sn with hcase | ⟨table, hcase⟩ <;>
      rw [hcase] <;> rfl
  · intro c' h
    rcases join_table_cases c caller now tid sn with hcase | ⟨table, hcase⟩
    · rw [hcase] at h
      exact (congrArg Prod.fst (Except.ok.inj h)).symm
    · rw [hcase] at h
      exact (okTrue_ne_okFalse h).elim
  · rcases leave_table_cases c caller now tid with hcase | ⟨table, i, p, hcase⟩ <;>
      rw [hcase] <;> rfl
  · intro c' h
    rcases leave_table_cases c caller now tid with hcase | ⟨table, i, p, hcase⟩
    · rw [hcase] at h
      exact (congrArg Prod.fst (Except.ok.inj h)).symm
    · rw [hcase] at h
      exact (okTrue_ne_okFalse h).elim
  · intro c' h
    exact place_bet_false_inv c caller now tid A c' h
  · intro c' h
    exact signal_move_false_inv c caller now tid mt hi c' h
  · intro hmem
    simp only [place_bet]
    rw [if_pos hmem]
  · intro table ht hs
    simp only [signal_move, ht]
    rw [if_pos hs]

/-- Witness for C1 (amended) at the low-balance state: leave soft-succeeds,
place_bet(5) aborts on the denomination check, and signal_move at the
Betting-phase table aborts on the state check. -/
theorem player_actions_soft_fail_witness :
    (leave_table exLowBalance "carol.near" 7 "t").isOk = true ∧
    place_bet exLowBalance "alice.near" 7 "t" 5
      = Except.error "Invalid bet amount" ∧
    signal_move exLowBalance "alice.near" 7 "t" PlayerMove.Stand none
      = Except.error "Not in player turn state" := by
  have h := player_actions_soft_fail exLowBalance "alice.near" 7 "t" 1 5
    PlayerMove.Stand none
  have h2 := player_actions_soft_fail exLowBalance "carol.near" 7 "t" 1 5
    PlayerMove.Stand none
  refine ⟨h2.2.2.1, h.2.2.2.2.2.2.1 (by decide), ?_⟩
  exact h.2.2.2.2.2.2.2 exTableBetting (by decide) (by decide)

-- ========================================
-- C7: deadline mutual exclusion
-- ========================================

/-- Counterexample for C7: a table reached from a fresh contract purely by
entry points (storage_deposit, create_table, join_table, advance to
Betting, set_current_player) ends with BOTH betting_deadline and
move_deadline set — set_current_player installs a move deadline without
clearing the betting deadline. -/
theorem deadlines_both_set_counterexample :
    exC7chain.map (fun t => t.betting_deadline.isSome && t.move_deadline.isSome)
      = some true ∧
    exC7chain.isSome = true := by
  exact ⟨rfl, rfl⟩

/-- Claim C7 (amended): set_table_state and advance_game_state into any
state other than DealingInitialCards leave at most one deadline set; but a
DealingInitialCards transition clears neither deadline, and the
current-player overrides (set_current_player, set_current_player_admin)
install a move deadline while leaving any betting deadline in place, so the
mutual-exclusion invariant is not preserved by every operation. -/
theorem deadline_discipline (c : CardsContract) (now : Nat) (tid : String)
    (s : GameState) (X : AccountId) :
    (∀ c', s ≠ GameState.DealingInitialCards →
      set_table_state c now tid s = (c', true) →
      ∀ t', mapGet c'.game_tables tid = some t' →
        t'.betting_deadline = none ∨ t'.move_deadline = none) ∧
    (∀ c', s ≠ GameState.DealingInitialCards →
      advance_game_state c now tid s = (c', true) →
      ∀ t', mapGet c'.game_tables tid = some t' →
        t'.betting_deadline = none ∨ t'.move_deadline = none) ∧
    (∀ c' table, mapGet c.game_tables tid = some table →
      set_table_state c now tid GameState.DealingInitialCards = (c', true) →
      ∀ t', mapGet c'.game_tables tid = some t' →
        t'.betting_deadline = table.betting_deadline ∧
        t'.move_deadline = table.move_deadline) ∧
    (∀ c' t', set_current_player c now tid X = (c', true) →
      mapGet c'.game_tables tid = some t' →
      t'.move_deadline.isSome = true ∧
      ∃ table, mapGet c.game_tables tid = some table ∧
        t'.betting_deadline = table.betting_deadline) ∧
    (∀ c' t', set_current_player_admin c now tid X = (c', true) →
      mapGet c'.game_tables tid = some t' →
      t'.move_deadline.isSome = true ∧
      ∃ table, mapGet c.game_tables tid = some table ∧
        t'.betting_deadline = table.betting_deadline) := by
  refine ⟨?_, ?_, ?_, ?_, ?_⟩
  · intro c' hs hset t' ht'
    cases htab : mapGet c.game_tables tid with
    | none =>
        simp only [set_table_state, htab] at hset
        exact Bool.noConfusion (congrArg Prod.snd hset)
    | some table =>
        simp only [set_table_state, htab] at hset
        have hc' := ((Prod.mk.injEq _ _ _ _).mp hset).1
        rw [← hc'] at ht'
        have ht2 : some (tableStateDeadlines c now
            { table with state := s, last_activity := now } s) = some t' :=
          (mapGet_mapPut_same _ _ _).symm.trans ht'
        have ht3 := Option.some.inj ht2
        subst ht3
        cases s with
        | WaitingForPlayers => exact Or.inl rfl
        | Betting => exact Or.inr rfl
        | DealingInitialCards => exact absurd rfl hs
        | PlayerTurn => exact Or.inl rfl
        | DealerTurn => exact Or.inl rfl
        | RoundEnded => exact Or.inl rfl
  · intro c' hs hset t' ht'
    cases htab : mapGet c.game_tables tid with
    | none =>
        simp only [advance_game_state, htab] at hset
        exact Bool.noConfusion (congrArg Prod.snd hset)
    | some table =>
        simp only [advance_game_state, htab] at hset
        have hc' := ((Prod.mk.injEq _ _ _ _).mp hset).1
        rw [← hc'] at ht'
        have ht2 : some ((advanceStateUpdate c now
            { table with state := s, last_activity := now } s).1) = some t' :=
          (mapGet_mapPut_same _ _ _).symm.trans ht'
        have ht3 := Option.some.inj ht2
        subst ht3
        cases s with
        | WaitingForPlayers => exact Or.inl rfl
        | Betting => exact Or.inr rfl
        | DealingInitialCards => exact absurd rfl hs
        | PlayerTurn => exact Or.inl rfl
        | DealerTurn => exact Or.inl rfl
        | RoundEnded => exact Or.inl rfl
  · intro c' table htab hset t' ht'
    simp only [set_table_state, htab] at hset
    have hc' := ((Prod.mk.injEq _ _ _ _).mp hset).1
    rw [← hc'] at ht'
    have ht2 : some (tableStateDeadlines c now
        { table with state := GameState.DealingInitialCards, last_activity := now }
        GameState.DealingInitialCards) = some t' :=
      (mapGet_mapPut_same _ _ _).symm.trans ht'
    have ht3 := Option.some.inj ht2
    subst ht3
    exact ⟨rfl, rfl⟩
  · intro c' t' hset ht'
    cases htab : mapGet c.game_tables tid with
    | none =>
        simp only [set_current_player, htab] at hset
        exact Bool.noConfusion (congrArg Prod.snd hset)
    | some table =>
        cases hfind : findPlayerIdx table.players X with
        | none =>
            simp only [set_current_player, htab, hfind] at hset
            exact Bool.noConfusion (congrArg Prod.snd hset)
        | some ip =>
            simp only [set_current_player, htab, hfind] at hset
            have hc' := ((Prod.mk.injEq _ _ _ _).mp hset).1
            rw [← hc'] at ht'
            have ht2 : some ({ table with
                current_player_index := some ip.1
                last_activity := now
                move_deadline := some (now + c.game_config.move_timeout_ms * 1000000) })
                = some t' :=
              (mapGet_mapPut_same _ _ _).symm.trans ht'
            have ht3 := Option.some.inj ht2
            subst ht3
            exact ⟨rfl, table, rfl, rfl⟩
  · intro c' t' hset ht'
    cases htab : mapGet c.game_tables tid with
    | none =>
        simp only [set_current_player_admin, htab] at hset
        exact Bool.noConfusion (congrArg Prod.snd hset)
    | some table =>
        cases hfind : findPlayerIdx table.players X with
        | none =>
            simp only [set_current_player_admin, htab, hfind] at hset
            exact Bool.noConfusion (congrArg Prod.snd hset)
        | some ip =>
            simp only [set_current_player_admin, htab, hfind] at hset
            have hc' := ((Prod.mk.injEq _ _ _ _).mp hset).1
            rw [← hc'] at ht'
            have ht2 : some ({ table with
                current_player_index := some ip.1
                move_deadline := some (now + c.game_config.move_timeout_ms * 1000000)
                last_activity := now })
                = some t' :=
              (mapGet_mapPut_same _ _ _).symm.trans ht'
            have ht3 := Option.some.inj ht2
            subst ht3
            exact ⟨rfl, table, rfl, rfl⟩

/-- Witness for C7 (amended): a DealerTurn transition on the mid-round
state ends with at most one deadline set. -/
theorem deadline_discipline_witness :
    exStateTable.betting_deadline = none ∨ exStateTable.move_deadline = none := by
  exact (deadline_discipline exMidRound 5 "t" GameState.DealerTurn "bob.near").1
    exStateSet (by decide) rfl exStateTable rfl

theorem get?_append_middle {α : Type} (A : List α) (a : α) (B : List α) :
    (A ++ a :: B).get? A.length = some a := by
  induction A with
  | nil => rfl
  | cons hd tl ih => exact ih

theorem eraseIdx_append_middle {α : Type} (A : List α) (a : α) (B : List α) :
    (A ++ a :: B).eraseIdx A.length = A ++ B := by
  induction A with
  | nil => rfl
  | cons hd tl ih =>
      simp only [List.cons_append, List.eraseIdx, List.length_cons]
      exact congrArg (fun l => hd :: l) ih

theorem enumFrom_filter_length {α : Type} (q : α → Bool) :
    ∀ (l : List α) (n : Nat),
    ((List.enumFrom n l).filter (fun ip => q ip.2)).length
      = (l.filter q).length := by
  intro l
  induction l with
  | nil => intro n; rfl
  | cons hd tl ih =>
      intro n
      simp only [List.enumFrom, List.filter]
      cases hq : q hd <;> simp [ih]

set_option maxHeartbeats 1000000 in
/-- The removal fold of `cleanup_inactive_players`: erasing the collected
indices from the highest down removes exactly the matching players and
applies their refunds from the highest index down. -/
theorem cleanup_fold_spec (now timeout_ns : Nat) :
    ∀ (A B : List BlackjackPlayer) (c : CardsContract) (t : GameTable),
    t.players = A ++ B →
    ((A.enum.filter (fun ip => timeout_ns < now - ip.2.last_action_time)).reverse.foldl
        cleanupRemoveStep (c, t))
      = (refundAllDesc c
          (A.filter (fun p => timeout_ns < now - p.last_action_time)),
         { t with players :=
            (A.filter (fun p => ¬ (timeout_ns < now - p.last_action_time))) ++ B }) := by
  intro A
  induction A using List.reverseRecOn with
  | nil =>
      intro B c t h
      simp only [List.enum_nil, List.filter_nil, List.reverse_nil, List.foldl_nil,
        refundAllDesc, List.foldr_nil, List.nil_append]
      rw [List.nil_append] at h
      rw [← h]
  | append_singleton A2 a ih =>
      intro B c t h
      rw [List.append_assoc, List.singleton_append] at h
      by_cases hqa : timeout_ns < now - a.last_action_time
      · have hqd : decide (timeout_ns < now - a.last_action_time) = true :=
          decide_eq_true hqa
        have hqdn : decide (¬ (timeout_ns < now - a.last_action_time)) = false :=
          decide_eq_false (not_not_intro hqa)
        rw [show (A2 ++ [a]).enum = A2.enum ++ [(A2.length, a)] by
          rw [List.enum_append]; rfl]
        rw [List.filter_append]
        rw [show List.filter (fun ip => decide (timeout_ns < now - ip.2.last_action_time))
            [(A2.length, a)] = [(A2.length, a)] by simp only [List.filter, hqd]]
        rw [List.reverse_append]
        simp only [List.reverse_singleton, List.singleton_append, List.foldl_cons]
        rw [show cleanupRemoveStep (c, t) (A2.length, a)
            = (cleanupRefund c a, { t with players := A2 ++ B }) by
          simp only [cleanupRemoveStep, h, get?_append_middle]
          rw [eraseIdx_append_middle]]
        rw [ih B (cleanupRefund c a) { t with players := A2 ++ B } rfl]
        rw [Prod.mk.injEq]
        constructor
        · rw [List.filter_append]
          rw [show List.filter (fun p => decide (timeout_ns < now - p.last_action_time)) [a]
              = [a] by simp only [List.filter, hqd]]
          rw [refundAllDesc, refundAllDesc, List.foldr_append]
          rfl
        · rw [List.filter_append]
          rw [show List.filter (fun p => decide (¬ (timeout_ns < now - p.last_action_time))) [a]
              = [] by simp only [List.filter, hqdn]]
          rw [List.append_nil]
      · have hqd : decide (timeout_ns < now - a.last_action_time) = false :=
          decide_eq_false hqa
        have hqdn : decide (¬ (timeout_ns < now - a.last_action_time)) = true :=
          decide_eq_true hqa
        rw [show (A2 ++ [a]).enum = A2.enum ++ [(A2.length, a)] by
          rw [List.enum_append]; rfl]
        rw [List.filter_append]
        rw [show List.filter (fun ip => decide (timeout_ns < now - ip.2.last_action_time))
            [(A2.length, a)] = [] by simp only [List.filter, hqd]]
        rw [List.append_nil]
        rw [ih (a :: B) c t h]
        rw [Prod.mk.injEq]
        constructor
        · rw [List.filter_append]
          rw [show List.filter (fun p => decide (timeout_ns < now - p.last_action_time)) [a]
              = [] by simp only [List.filter, hqd]]
          rw [List.append_nil]
        · rw [List.filter_append]
          rw [show List.filter (fun p => decide (¬ (timeout_ns < now - p.last_action_time))) [a]
              = [a] by simp only [List.filter, hqdn]]
          rw [List.append_assoc, List.singleton_append]

theorem cleanupRefund_other (c : CardsContract) (p : BlackjackPlayer)
    (x : AccountId) (hx : p.account_id ≠ x) :
    mapGet (cleanupRefund c p).accounts x = mapGet c.accounts x := by
  unfold cleanupRefund
  split
  · split
    next ua hua => exact mapGet_mapPut_other _ _ _ _ hx
    next => rfl
  · rfl

theorem cleanupRefund_pending (c : CardsContract) (p : BlackjackPlayer) :
    (cleanupRefund c p).pending_bets = c.pending_bets ∧
    (cleanupRefund c p).pending_moves = c.pending_moves ∧
    (cleanupRefund c p).game_tables = c.game_tables := by
  unfold cleanupRefund
  split
  · split
    next => exact ⟨rfl, rfl, rfl⟩
    next => exact ⟨rfl, rfl, rfl⟩
  · exact ⟨rfl, rfl, rfl⟩

theorem refundAllDesc_not_mem (l : List BlackjackPlayer) :
    ∀ (c : CardsContract) (x : AccountId),
    (∀ p ∈ l, p.account_id ≠ x) →
    mapGet (refundAllDesc c l).accounts x = mapGet c.accounts x := by
  induction l with
  | nil => intro c x _; rfl
  | cons hd tl ih =>
      intro c x h
      show mapGet (cleanupRefund (refundAllDesc c tl) hd).accounts x = _
      rw [cleanupRefund_other _ _ _ (h hd (List.mem_cons_self _ _))]
      exact ih c x (fun p hp => h p (List.mem_cons_of_mem _ hp))

theorem refundAllDesc_pending (l : List BlackjackPlayer) (c : CardsContract) :
    (refundAllDesc c l).pending_bets = c.pending_bets ∧
    (refundAllDesc c l).pending_moves = c.pending_moves ∧
    (refundAllDesc c l).game_tables = c.game_tables := by
  induction l with
  | nil => exact ⟨rfl, rfl, rfl⟩
  | cons hd tl ih =>
      have h2 := cleanupRefund_pending (refundAllDesc c tl) hd
      exact ⟨h2.1.trans ih.1, h2.2.1.trans ih.2.1, h2.2.2.trans ih.2.2⟩

theorem refundAllDesc_balance (l : List BlackjackPlayer) :
    ∀ (c : CardsContract) (x : AccountId) (ua : UserAccount) (p : BlackjackPlayer),
    (l.map (fun q => q.account_id)).Nodup → p ∈ l → p.account_id = x →
    mapGet c.accounts x = some ua →
    mapGet (refundAllDesc c l).accounts x
      = some { ua with balance := ua.balance + p.burned_tokens } := by
  induction l with
  | nil =>
      intro c x ua p _ hp
      exact absurd hp (List.not_mem_nil p)
  | cons hd tl ih =>
      intro c x ua p hnd hp hpx hua
      simp only [List.map_cons, List.nodup_cons] at hnd
      show mapGet (cleanupRefund (refundAllDesc c tl) hd).accounts x = _
      rcases List.mem_cons.mp hp with hphd | hptl
      · subst hphd
        have htl : ∀ p2 ∈ tl, p2.account_id ≠ x := by
          intro p2 hp2 hp2x
          exact hnd.1 (by
            rw [← hpx] at hp2x
            rw [← hp2x]
            exact List.mem_map_of_mem _ hp2)
        have hbase : mapGet (refundAllDesc c tl).accounts x = some ua := by
          rw [refundAllDesc_not_mem tl c x htl]
          exact hua
        unfold cleanupRefund
        split
        · rw [hpx, hbase]
          exact mapGet_mapPut_same _ _ _
        next hzero =>
          have hb0 : p.burned_tokens = 0 := by omega
          rw [hb0, hbase]
          simp
      · have hhd : hd.account_id ≠ x := by
          intro hhdx
          refine hnd.1 ?_
          rw [hhdx, ← hpx]
          exact List.mem_map_of_mem _ hptl
        rw [cleanupRefund_other _ _ _ hhd]
        exact ih c x ua p hnd.2 hptl hpx hua

/-- `cleanup_inactive_players` characterized: remove exactly the timed-out
players, refund them from the highest seat index down, then run the
post-removal bookkeeping. -/
theorem cleanup_inactive_eq (c : CardsContract) (now : Nat) (tid : String)
    (tms : Nat) (table : GameTable)
    (htab : mapGet c.game_tables tid = some table) :
    cleanup_inactive_players c now tid tms
      = (if (table.players.filter
            (fun p => tms * 1000000 < now - p.last_action_time)).length = 0
        then (c, 0)
        else cleanupFinish
          (refundAllDesc c (table.players.filter
            (fun p => tms * 1000000 < now - p.last_action_time)))
          now tid
          { table with players :=
              (table.players.filter
                (fun p => ¬ (tms * 1000000 < now - p.last_action_time))) }
          (table.players.filter
            (fun p => tms * 1000000 < now - p.last_action_time)).length) := by
  simp only [cleanup_inactive_players, htab]
  rw [cleanup_fold_spec now (tms * 1000000) table.players [] c table
    (List.append_nil _).symm]
  rw [show table.players.enum = table.players.enumFrom 0 from rfl]
  rw [enumFrom_filter_length (fun p => decide (tms * 1000000 < now - p.last_action_time)) table.players 0]
  rw [List.append_nil]

theorem cleanupFinish_snd (cA : CardsContract) (now : Nat) (tid : String)
    (t0 : GameTable) (n : Nat) : (cleanupFinish cA now tid t0 n).2 = n := by
  simp only [cleanupFinish]
  repeat' split
  all_goals rfl

theorem cleanupFinish_accounts (cA : CardsContract) (now : Nat) (tid : String)
    (t0 : GameTable) (n : Nat) :
    (cleanupFinish cA now tid t0 n).1.accounts = cA.accounts := by
  simp only [cleanupFinish]
  repeat' split
  all_goals rfl

theorem cleanupFinish_players (cA : CardsContract) (now : Nat) (tid : String)
    (t0 : GameTable) (n : Nat) :
    ∃ t', mapGet (cleanupFinish cA now tid t0 n).1.game_tables tid = some t' ∧
      t'.players = t0.players := by
  simp only [cleanupFinish]
  repeat' split
  all_goals exact ⟨_, mapGet_mapPut_same _ _ _, rfl⟩

/-- On a table left non-empty, `cleanupFinish` keeps the state and players,
leaves an in-range turn pointer numerically unchanged, and recomputes an
out-of-range pointer from seat 0. -/
theorem cleanupFinish_nonempty (cA : CardsContract) (now : Nat) (tid : String)
    (t0 : GameTable) (n : Nat) (hne : t0.players ≠ []) :
    ∃ t', mapGet (cleanupFinish cA now tid t0 n).1.game_tables tid = some t'
      ∧ t'.state = t0.state
      ∧ t'.players = t0.players
      ∧ (t0.current_player_index = none → t'.current_player_index = none)
      ∧ (∀ idx, t0.current_player_index = some idx →
          idx < t0.players.length → t'.current_player_index = some idx)
      ∧ (∀ idx, t0.current_player_index = some idx →
          t0.players.length ≤ idx →
          t'.current_player_index
            = find_next_active_player { t0 with last_activity := now } 0) := by
  have hni : ¬ (t0.players.isEmpty = true) := by
    cases hp : t0.players with
    | nil => exact absurd hp hne
    | cons a l => exact fun hh => Bool.noConfusion hh
  cases hcpi : t0.current_player_index with
  | none =>
      simp only [cleanupFinish, hcpi]
      rw [if_neg hni]
      exact ⟨_, mapGet_mapPut_same _ _ _, rfl, rfl, fun _ => rfl,
        fun idx hidx _ => Option.noConfusion hidx,
        fun idx hidx _ => Option.noConfusion hidx⟩
  | some cur =>
      by_cases hlen : t0.players.length ≤ cur
      · simp only [cleanupFinish, hcpi]
        rw [if_pos hlen, if_neg hni]
        refine ⟨_, mapGet_mapPut_same _ _ _, rfl, rfl,
          fun hh => Option.noConfusion hh, ?_, ?_⟩
        · intro idx hidx hlt
          have h3 := Option.some.inj hidx
          exact absurd hlt (by omega)
        · intro idx _ _
          rfl
      · simp only [cleanupFinish, hcpi]
        rw [if_neg hlen, if_neg hni]
        refine ⟨_, mapGet_mapPut_same _ _ _, rfl, rfl,
          fun hh => Option.noConfusion hh, ?_, ?_⟩
        · intro idx hidx _
          exact congrArg some (Option.some.inj hidx)
        · intro idx hidx hge
          have h3 := Option.some.inj hidx
          exact absurd hge (by omega)

theorem cleanupFinish_empty (cA : CardsContract) (now : Nat) (tid : String)
    (t0 : GameTable) (n : Nat) (hemp : t0.players = [])
    (hnb : (cA.pending_bets.map Prod.fst).Nodup)
    (hnm : (cA.pending_moves.map Prod.fst).Nodup) :
    ∃ t', mapGet (cleanupFinish cA now tid t0 n).1.game_tables tid = some t' ∧
      t'.state = GameState.WaitingForPlayers ∧
      t'.current_player_index = none ∧
      t'.betting_deadline = none ∧
      t'.move_deadline = none ∧
      mapGet (cleanupFinish cA now tid t0 n).1.pending_bets tid = none ∧
      mapGet (cleanupFinish cA now tid t0 n).1.pending_moves tid = none := by
  obtain ⟨i0, s0, p0, cpi0, rn0, ca0, la0, bd0, md0, mp0, mn0, mx0, ia0⟩ := t0
  have h2 : p0 = [] := hemp
  subst h2
  simp only [cleanupFinish]
  repeat' split
  all_goals first
    | exact ⟨_, mapGet_mapPut_same _ _ _, rfl, rfl, rfl, rfl,
        mapGet_mapDel_same _ _ hnb, mapGet_mapDel_same _ _ hnm⟩
    | simp_all

/-- The inactivity sweep is NOT leave-like in two respects.  Refunds: on a
PlayerTurn table, leave_table removes bob without refunding his stake
(balance stays 100), while cleanup_inactive_players refunds it
unconditionally (balance becomes 150).  Turn pointer: sweeping the inactive
seat-0 player of a three-player table repoints nothing because the pointer
(seat 1) is still in range, so it now designates the player who sat at
seat 2 instead of the one whose turn it was. -/
theorem cleanup_refund_phase_counterexample :
    (exTableTurn.state = GameState.PlayerTurn ∧
     exPlayerBob.burned_tokens = 50 ∧
     get_balance exMidRound "bob.near" = 100 ∧
     leave_table exMidRound "bob.near" 10000000000 "t" = Except.ok exMidLeave ∧
     get_balance exMidLeave.1 "bob.near" = 100 ∧
     get_balance (cleanup_inactive_players exMidRound 10000000000 "t" 1).1
       "bob.near" = 150) ∧
    (exSweepTable.current_player_index = some 1 ∧
     exSweepTable.players.get? 1 = some exPlayerMid ∧
     mapGet (cleanup_inactive_players exSweepState 10000000000 "s" 1).1.game_tables
       "s" = some exSweptTable ∧
     exSweptTable.current_player_index = some 1 ∧
     exSweptTable.players.get? 1 = some exPlayerNew ∧
     exPlayerNew ≠ exPlayerMid) := by
  refine ⟨⟨rfl, rfl, rfl, rfl, by decide, by decide⟩,
    rfl, rfl, by decide, by decide, by decide, by decide⟩

set_option maxHeartbeats 1600000 in
/-- C8 (amended): the sweep removes exactly the timed-out players (in
reverse index order, so the surviving players are the order-preserving
filter of the original seating), reports their count, refunds each removed
player's stake unconditionally - in every phase, unlike leave_table -
and resets an emptied table, clearing its pending queues.  On a table left
non-empty the turn pointer is adjusted only when it falls out of range
(recomputed from seat 0); an in-range pointer keeps its numeric value, so
after a lower-indexed removal it can designate a different player. -/
theorem cleanup_sweep_characterization (c : CardsContract) (now : Nat)
    (tid : String) (tms : Nat) (table : GameTable)
    (htab : mapGet c.game_tables tid = some table)
    (hnd : (table.players.map (fun q => q.account_id)).Nodup)
    (hnb : (c.pending_bets.map Prod.fst).Nodup)
    (hnm : (c.pending_moves.map Prod.fst).Nodup) :
    ((cleanup_inactive_players c now tid tms).2
        = (table.players.filter
            (fun p => tms * 1000000 < now - p.last_action_time)).length)
    ∧ (table.players.filter
          (fun p => tms * 1000000 < now - p.last_action_time) = []
        → cleanup_inactive_players c now tid tms = (c, 0))
    ∧ (table.players.filter
          (fun p => tms * 1000000 < now - p.last_action_time) ≠ []
        → ∃ t', mapGet (cleanup_inactive_players c now tid tms).1.game_tables tid
              = some t'
            ∧ t'.players = table.players.filter
                (fun p => ¬ (tms * 1000000 < now - p.last_action_time)))
    ∧ (∀ p, p ∈ table.players → tms * 1000000 < now - p.last_action_time
        → ∀ ua, mapGet c.accounts p.account_id = some ua
        → get_balance (cleanup_inactive_players c now tid tms).1 p.account_id
            = ua.balance + p.burned_tokens)
    ∧ (table.players.filter
          (fun p => tms * 1000000 < now - p.last_action_time) ≠ []
        → table.players.filter
            (fun p => ¬ (tms * 1000000 < now - p.last_action_time)) = []
        → ∃ t', mapGet (cleanup_inactive_players c now tid tms).1.game_tables tid
              = some t'
            ∧ t'.state = GameState.WaitingForPlayers
            ∧ t'.current_player_index = none
            ∧ t'.betting_deadline = none
            ∧ t'.move_deadline = none
            ∧ mapGet (cleanup_inactive_players c now tid tms).1.pending_bets tid
                = none
            ∧ mapGet (cleanup_inactive_players c now tid tms).1.pending_moves tid
                = none)
    ∧ (table.players.filter
          (fun p => tms * 1000000 < now - p.last_action_time) ≠ []
        → table.players.filter
            (fun p => ¬ (tms * 1000000 < now - p.last_action_time)) ≠ []
        → ∃ t', mapGet (cleanup_inactive_players c now tid tms).1.game_tables tid
              = some t'
            ∧ t'.state = table.state
            ∧ (table.current_player_index = none
                → t'.current_player_index = none)
            ∧ (∀ idx, table.current_player_index = some idx
                → idx < (table.players.filter
                    (fun p => ¬ (tms * 1000000 < now - p.last_action_time))).length
                → t'.current_player_index = some idx)
            ∧ (∀ idx, table.current_player_index = some idx
                → (table.players.filter
                    (fun p => ¬ (tms * 1000000 < now - p.last_action_time))).length
                    ≤ idx
                → t'.current_player_index
                    = find_next_active_player
                      { table with
                        players :=
                          (table.players.filter
                            (fun p =>
                              ¬ (tms * 1000000 < now - p.last_action_time)))
                        last_activity := now } 0)) := by
  have heq := cleanup_inactive_eq c now tid tms table htab
  by_cases hz : table.players.filter
      (fun p => tms * 1000000 < now - p.last_action_time) = []
  · have hz0 : (table.players.filter
        (fun p => tms * 1000000 < now - p.last_action_time)).length = 0 := by
      rw [hz]
      rfl
    rw [heq, if_pos hz0]
    refine ⟨hz0.symm, fun _ => rfl, fun hn => absurd hz hn, ?_,
      fun hn => absurd hz hn, fun hn => absurd hz hn⟩
    intro p hp hto ua hua
    have hmem : p ∈ table.players.filter
        (fun q => tms * 1000000 < now - q.last_action_time) :=
      List.mem_filter.mpr ⟨hp, decide_eq_true hto⟩
    rw [hz] at hmem
    exact absurd hmem (List.not_mem_nil p)
  · have hz0 : ¬ ((table.players.filter
        (fun p => tms * 1000000 < now - p.last_action_time)).length = 0) := by
      intro h0
      exact hz (List.length_eq_zero.mp h0)
    rw [heq, if_neg hz0]
    refine ⟨cleanupFinish_snd _ _ _ _ _, fun h0 => absurd h0 hz,
      fun _ => cleanupFinish_players _ _ _ _ _, ?_, ?_, ?_⟩
    · intro p hp hto ua hua
      have hmem : p ∈ table.players.filter
          (fun q => tms * 1000000 < now - q.last_action_time) :=
        List.mem_filter.mpr ⟨hp, decide_eq_true hto⟩
      have hndr : ((table.players.filter
          (fun q => tms * 1000000 < now - q.last_action_time)).map
            (fun q => q.account_id)).Nodup := by
        refine List.Nodup.sublist ?_ hnd
        exact (List.filter_sublist _).map _
      have hbal := refundAllDesc_balance
        (table.players.filter (fun q => tms * 1000000 < now - q.last_action_time))
        c p.account_id ua p hndr hmem rfl hua
      have hacc := cleanupFinish_accounts
        (refundAllDesc c (table.players.filter
          (fun q => tms * 1000000 < now - q.last_action_time)))
        now tid
        { table with players :=
            (table.players.filter
              (fun q => ¬ (tms * 1000000 < now - q.last_action_time))) }
        (table.players.filter
          (fun q => tms * 1000000 < now - q.last_action_time)).length
      have hgb : get_balance (cleanupFinish
          (refundAllDesc c (table.players.filter
            (fun q => tms * 1000000 < now - q.last_action_time)))
          now tid
          { table with players :=
              (table.players.filter
                (fun q => ¬ (tms * 1000000 < now - q.last_action_time))) }
          (table.players.filter
            (fun q => tms * 1000000 < now - q.last_action_time)).length).1
          p.account_id
          = get_balance (refundAllDesc c (table.players.filter
            (fun q => tms * 1000000 < now - q.last_action_time)))
            p.account_id :=
        get_balance_congr _ _ _ (by rw [hacc])
      rw [hgb, get_balance_eq _ _ _ hbal]
    · intro _ hkz
      refine cleanupFinish_empty _ now tid _ _ ?_ ?_ ?_
      · exact hkz
      · rw [(refundAllDesc_pending _ c).1]
        exact hnb
      · rw [(refundAllDesc_pending _ c).2.1]
        exact hnm
    · intro _ hkne
      obtain ⟨t', ht', hstate, _hplayers, hnone, hin, hout⟩ :=
        cleanupFinish_nonempty
          (refundAllDesc c (table.players.filter
            (fun q => tms * 1000000 < now - q.last_action_time)))
          now tid
          { table with players :=
              (table.players.filter
                (fun q => ¬ (tms * 1000000 < now - q.last_action_time))) }
          (table.players.filter
            (fun q => tms * 1000000 < now - q.last_action_time)).length
          hkne
      exact ⟨t', ht', hstate, hnone, hin, hout⟩

/-- Witness: on the PlayerTurn table of exMidRound, the sweep removes bob
and refunds his 50 staked tokens on top of his 100 balance. -/
theorem cleanup_sweep_characterization_witness :
    mapGet exMidRound.game_tables "t" = some exTableTurn ∧
    get_balance (cleanup_inactive_players exMidRound 10000000000 "t" 1).1
      "bob.near" = 150 := by
  have h := cleanup_sweep_characterization exMidRound 10000000000 "t" 1
    exTableTurn (by decide) (by decide) (by decide) (by decide)
  refine ⟨by decide, ?_⟩
  exact h.2.2.2.1 exPlayerBob (by decide) (by decide)
    { UserAccount.default with balance := 100 } (by decide)

end WarsOfCards
